import Mathlib

set_option maxRecDepth 8192

/-!
Shallow embedding of the price-comparison pipeline of `src/server-Copy1.js`
(cdkeys-steam-backend): the price parser `parsePrice`, the title normalizer
`cleanGameName`, the multi-stage catalog search `searchSteamGame`, the quote
constructor of `fetchSteamPriceByAppId`, and the `/api/compare` handler loop.

Modelling conventions:
* JS strings are Lean `String`/`List Char`; all source strings here are
  BMP-only, so JS UTF-16 `length` coincides with Lean's codepoint length.
* JS numbers are exact: integers as `Int`, fractional arithmetic as `ℚ`.
  A JS number that is `NaN` or `±Infinity` is modelled as `none` in
  `Option Int`/`Option ℚ`.  IEEE-double rounding error of the source's
  arithmetic is below the granularity of this model.
* Network calls are oracle functions passed as arguments; the cache is
  modelled empty (every access is a miss), and a caught per-call network
  error is indistinguishable from an empty result set, as in the source.
-/

/-- The JS `\s` class / `trim` whitespace, restricted to the members that
can occur in this pipeline's data, by code point: tab, LF, VT, FF, CR,
space, NBSP. -/
def isSpaceJS (c : Char) : Bool :=
  c.toNat = 32 || c.toNat = 9 || c.toNat = 10 || c.toNat = 11 || c.toNat = 12 ||
    c.toNat = 13 || c.toNat = 160

/-- ASCII fragment of JS `String.prototype.toLowerCase` (the only characters
lowercasing can affect in this pipeline are ASCII letters). -/
def toLowerChar (c : Char) : Char :=
  if 65 ≤ c.toNat ∧ c.toNat ≤ 90 then Char.ofNat (c.toNat + 32) else c

/-- `'0' ≤ c ≤ '9'`, by code point. -/
def isDigitChar (c : Char) : Bool :=
  48 ≤ c.toNat && c.toNat ≤ 57

/-- Value of a decimal digit string (most significant first). -/
def digitsVal (l : List Char) : Nat :=
  l.foldl (fun acc c => 10 * acc + (c.toNat - 48)) 0

def digitChar (n : Nat) : Char :=
  Char.ofNat (48 + n)

/-- Decimal digits of `n`, most significant first, with explicit fuel
(fuel `n + 1` always suffices, since `n / 10 < n` for `n ≥ 10`). -/
def natDigitsF : Nat → Nat → List Char
  | 0, _ => []
  | f + 1, n => if n < 10 then [digitChar n] else natDigitsF f (n / 10) ++ [digitChar (n % 10)]

def natDigits (n : Nat) : List Char :=
  natDigitsF (n + 1) n

/-- `prefixCI p l`: `p` (given lowercase) is a prefix of `l` compared
case-insensitively, as JS regex literals with the `i` flag compare. -/
def prefixCI : List Char → List Char → Bool
  | [], _ => true
  | _ :: _, [] => false
  | a :: p, c :: l => toLowerChar c = a && prefixCI p l

/-- Case-sensitive prefix test (JS `String.prototype.startsWith`). -/
def prefixCS : List Char → List Char → Bool
  | [], _ => true
  | _ :: _, [] => false
  | a :: p, c :: l => c = a && prefixCS p l

/-- JS `String.prototype.includes` on char lists. -/
def containsList (needle : List Char) : List Char → Bool
  | [] => needle.isEmpty
  | c :: r => prefixCS needle (c :: r) || containsList needle r

/-- JS `String.prototype.trim` on char lists. -/
def trimLC (l : List Char) : List Char :=
  ((l.dropWhile isSpaceJS).reverse.dropWhile isSpaceJS).reverse

def trimS (s : String) : String :=
  String.mk (trimLC s.data)

/-- JS `Math.round`: round half toward positive infinity, `⌊q + 1/2⌋`
(written with the computable `Rat.floor`). -/
def jsRound (q : ℚ) : Int :=
  (q + 1 / 2).floor

/-- `Math.round` of the exact quotient `a / b` (`b ≠ 0`), computed with
integer arithmetic only, so that it evaluates by kernel reduction
(`ℚ` normalization uses `Nat.gcd`, which the kernel cannot unfold).
`jsRoundDiv_eq` proves it agrees with `jsRound ((a : ℚ) / b)`. -/
def jsRoundDiv (a b : Int) : Int :=
  if 0 < b then (2 * a + b) / (2 * b) else (2 * (-a) + (-b)) / (2 * (-b))

/-- Decimal-digit run parsed by `parseInt`: longest digit prefix, `none`
when it is empty (JS `NaN`). -/
def parseDecPrefix (l : List Char) : Option Nat :=
  let d := l.takeWhile isDigitChar
  if d.isEmpty then none else some (digitsVal d)

def isHexDigitChar (c : Char) : Bool :=
  isDigitChar c || ('a' ≤ c && c ≤ 'f') || ('A' ≤ c && c ≤ 'F')

def hexDigitVal (c : Char) : Nat :=
  if isDigitChar c then c.toNat - 48
  else if 'a' ≤ c && c ≤ 'f' then c.toNat - 87
  else c.toNat - 55

def hexVal (l : List Char) : Nat :=
  l.foldl (fun acc c => 16 * acc + hexDigitVal c) 0

def parseHexPrefix (l : List Char) : Option Nat :=
  let d := l.takeWhile isHexDigitChar
  if d.isEmpty then none else some (hexVal d)

/-- Unsigned part of JS `parseInt(s)` (radix unspecified, so a leading
`0x`/`0X` selects hexadecimal). -/
def parseIntAbs (l : List Char) : Option Nat :=
  match l with
  | '0' :: x :: r => if x = 'x' ∨ x = 'X' then parseHexPrefix r else parseDecPrefix l
  | _ => parseDecPrefix l

/-- JS `parseInt(s)` with unspecified radix; `none` is `NaN`. -/
def jsParseIntL (l : List Char) : Option Int :=
  match l.dropWhile isSpaceJS with
  | '-' :: r => (parseIntAbs r).map (fun v => -(v : Int))
  | '+' :: r => (parseIntAbs r).map (fun v => (v : Int))
  | l1 => (parseIntAbs l1).map (fun v => (v : Int))

/-- Exponent suffix of a JS float literal: `e`/`E`, optional sign, digits;
an incomplete exponent is ignored, as `parseFloat` backtracks over it. -/
def expDigits (m : ℚ) (sgn : Int) (u : List Char) : ℚ :=
  let d := u.takeWhile isDigitChar
  if d.isEmpty then m else m * (10 : ℚ) ^ (sgn * (digitsVal d : Int))

def expTail (m : ℚ) : List Char → ℚ
  | '-' :: u => expDigits m (-1) u
  | '+' :: u => expDigits m 1 u
  | u => expDigits m 1 u

def applyExponent (m : ℚ) : List Char → ℚ
  | 'e' :: t => expTail m t
  | 'E' :: t => expTail m t
  | _ => m

/-- Unsigned part of JS `parseFloat`; `none` is `NaN` or `Infinity`
(this model folds the non-finite values into `none`). -/
def parseFloatAbs (l : List Char) : Option ℚ :=
  if prefixCS "Infinity".data l then none
  else
    let d1 := l.takeWhile isDigitChar
    let r1 := l.dropWhile isDigitChar
    let d2 := match r1 with
      | '.' :: t => t.takeWhile isDigitChar
      | _ => []
    let r2 := match r1 with
      | '.' :: t => t.dropWhile isDigitChar
      | _ => r1
    if d1.isEmpty ∧ d2.isEmpty then none
    else some (applyExponent ((digitsVal d1 : ℚ) + (digitsVal d2 : ℚ) / (10 : ℚ) ^ d2.length) r2)

/-- JS `parseFloat(s)`; `none` is a non-finite result. -/
def jsParseFloatL (l : List Char) : Option ℚ :=
  match l.dropWhile isSpaceJS with
  | '-' :: r => (parseFloatAbs r).map (fun x => -x)
  | '+' :: r => parseFloatAbs r
  | l1 => parseFloatAbs l1

/-- `parsePrice` of server-Copy1.js on char lists: free markers first, then
currency symbols in fixed priority order `₩`, `$`, `€`, `£`; each branch
strips its symbol, digit-grouping commas and whitespace.  `none` models a
non-finite JS number (`NaN`/`Infinity`). -/
def parsePriceL (l : List Char) : Option Int :=
  if l.isEmpty then some 0
  else if l = "무료".data ∨ containsList "free".data (l.map toLowerChar) then some 0
  else if l.contains '₩' then
    jsParseIntL (l.filter (fun c => !(c = '₩' || c = ',' || isSpaceJS c)))
  else if l.contains '$' then
    (jsParseFloatL (l.filter (fun c => !(c = '$' || c = ',' || isSpaceJS c)))).map
      (fun x => jsRound (x * 1320))
  else if l.contains '€' then
    (jsParseFloatL (l.filter (fun c => !(c = '€' || c = ',' || isSpaceJS c)))).map
      (fun x => jsRound (x * 1430))
  else if l.contains '£' then
    (jsParseFloatL (l.filter (fun c => !(c = '£' || c = ',' || isSpaceJS c)))).map
      (fun x => jsRound (x * 1670))
  else some 0

def parsePrice (s : String) : Option Int :=
  parsePriceL s.data

/-- Insert a digit-group comma after every third digit; the input is the
digit list in reverse (least significant first), the counter counts digits
emitted since the last comma. -/
def commasAux : Nat → List Char → List Char
  | _, [] => []
  | k, c :: r => if k = 3 then ',' :: c :: commasAux 1 r else c :: commasAux (k + 1) r

/-- JS `Number.prototype.toLocaleString('ko-KR')` for a natural number:
decimal digits in groups of three separated by commas. -/
def toLocaleStringKR (n : Nat) : String :=
  String.mk ((commasAux 0 (natDigits n).reverse).reverse)

/-- `formatPriceFromCents` of server-Copy1.js: `0` (or a missing value)
becomes the free sentinel `"무료"`, otherwise `'₩' + Math.round(cents/100)`
in grouped decimal notation. -/
def formatPriceFromCents (cents : Nat) : String :=
  if cents = 0 then "무료"
  else "₩" ++ toLocaleStringKR (jsRoundDiv (cents : Int) 100).toNat

/-!
### Suffix patterns of `cleanGameName`

Each of the 42 regexes in `platformPatterns` is `$`-anchored and is, up to
the `i` flag, a sequence of the tokens below; `.replace(pattern, '')` with
such a pattern removes the suffix starting at the leftmost position whose
whole remainder matches.
-/

inductive Tok : Type
  | ws1 : Tok
  | ws0 : Tok
  | lit : List Char → Tok
  | opt : List Char → Tok

/-- Backtracking matcher: does the token sequence match the whole char
list?  `lit`/`opt` literals are given lowercase and compared
case-insensitively.  Fuel-based so that it evaluates by kernel reduction;
every recursive call strictly decreases `2 * l.length + ts.length`, so the
fuel passed by `matchToks` always suffices. -/
def matchToksF : Nat → List Tok → List Char → Bool
  | 0, _, _ => false
  | _ + 1, [], [] => true
  | _ + 1, [], _ :: _ => false
  | f + 1, Tok.ws0 :: ts, [] => matchToksF f ts []
  | f + 1, Tok.ws0 :: ts, c :: r =>
      matchToksF f ts (c :: r) || (isSpaceJS c && matchToksF f (Tok.ws0 :: ts) r)
  | _ + 1, Tok.ws1 :: _, [] => false
  | f + 1, Tok.ws1 :: ts, c :: r => isSpaceJS c && matchToksF f (Tok.ws0 :: ts) r
  | f + 1, Tok.lit s :: ts, l => prefixCI s l && matchToksF f ts (l.drop s.length)
  | f + 1, Tok.opt s :: ts, l =>
      (prefixCI s l && matchToksF f ts (l.drop s.length)) || matchToksF f ts l

def matchToks (ts : List Tok) (l : List Char) : Bool :=
  matchToksF (2 * l.length + ts.length + 1) ts l

/-- `str.replace(pat, '')` for a `$`-anchored pattern: delete the suffix
beginning at the leftmost position whose whole remainder matches. -/
def replAnchored (ts : List Tok) : List Char → List Char
  | [] => []
  | c :: r => if matchToks ts (c :: r) then [] else c :: replAnchored ts r

/-- The 42 `platformPatterns` regexes of `cleanGameName`, in source order. -/
def platformPatterns : List (List Tok) :=
  [ [Tok.ws1, Tok.lit "pc-dlc".data, Tok.ws0],
    [Tok.ws1, Tok.lit "(pc-dlc)".data, Tok.ws0],
    [Tok.ws1, Tok.lit "-".data, Tok.ws0, Tok.lit "pc-dlc".data, Tok.ws0],
    [Tok.ws1, Tok.lit "pc - dlc".data, Tok.ws0],
    [Tok.ws1, Tok.lit "(pc/mac)".data, Tok.ws0],
    [Tok.ws1, Tok.lit "-".data, Tok.ws0, Tok.lit "pc/mac".data, Tok.ws0],
    [Tok.ws1, Tok.lit "[pc/mac]".data, Tok.ws0],
    [Tok.ws1, Tok.lit "pc/mac".data, Tok.ws0, Tok.lit "-".data, Tok.ws0],
    [Tok.ws1, Tok.lit "pc/mac".data, Tok.ws0, Tok.opt "-".data, Tok.ws0],
    [Tok.ws1, Tok.lit "pc/mac".data, Tok.ws1, Tok.lit "-".data, Tok.ws0],
    [Tok.ws1, Tok.lit "(pc/mac)".data, Tok.ws0, Tok.opt "-".data, Tok.ws0],
    [Tok.ws1, Tok.lit "pc".data, Tok.ws0],
    [Tok.ws1, Tok.lit "(pc)".data, Tok.ws0],
    [Tok.ws1, Tok.lit "-".data, Tok.ws0, Tok.lit "pc".data, Tok.ws0],
    [Tok.ws1, Tok.lit "dlc".data, Tok.ws0],
    [Tok.ws1, Tok.lit "(dlc)".data, Tok.ws0],
    [Tok.ws1, Tok.lit "-".data, Tok.ws0, Tok.lit "dlc".data, Tok.ws0],
    [Tok.ws1, Tok.lit "steam".data, Tok.ws0],
    [Tok.ws1, Tok.lit "(steam)".data, Tok.ws0],
    [Tok.ws1, Tok.lit "-".data, Tok.ws0, Tok.lit "steam".data, Tok.ws0],
    [Tok.ws1, Tok.lit "steam".data, Tok.ws1, Tok.lit "key".data, Tok.ws0],
    [Tok.ws1, Tok.lit "steam".data, Tok.ws1, Tok.lit "code".data, Tok.ws0],
    [Tok.ws1, Tok.lit "key".data, Tok.ws0],
    [Tok.ws1, Tok.lit "code".data, Tok.ws0],
    [Tok.ws1, Tok.lit "(key)".data, Tok.ws0],
    [Tok.ws1, Tok.lit "(code)".data, Tok.ws0],
    [Tok.ws1, Tok.lit "digital".data, Tok.ws0],
    [Tok.ws1, Tok.lit "(digital)".data, Tok.ws0],
    [Tok.ws1, Tok.lit "digital".data, Tok.ws1, Tok.lit "download".data, Tok.ws0],
    [Tok.ws1, Tok.lit "download".data, Tok.ws0],
    [Tok.ws1, Tok.lit "global".data, Tok.ws0],
    [Tok.ws1, Tok.lit "[global]".data, Tok.ws0],
    [Tok.ws1, Tok.lit "(global)".data, Tok.ws0],
    [Tok.ws1, Tok.lit "worldwide".data, Tok.ws0],
    [Tok.ws1, Tok.lit "[worldwide]".data, Tok.ws0],
    [Tok.ws1, Tok.lit "eu".data, Tok.ws0],
    [Tok.ws1, Tok.lit "us".data, Tok.ws0],
    [Tok.ws1, Tok.lit "uk".data, Tok.ws0],
    [Tok.ws1, Tok.lit "row".data, Tok.ws0],
    [Tok.ws1, Tok.lit "edition".data, Tok.ws0],
    [Tok.ws1, Tok.lit "game".data, Tok.ws0],
    [Tok.ws1, Tok.lit "(game)".data, Tok.ws0] ]

/-- The candidate produced by `cleanGameName` before its safety check:
`originalName.trim()` with each pattern applied in order, re-trimming after
each `replace`. -/
def cleanedCandidate (originalName : String) : List Char :=
  platformPatterns.foldl (fun cur p => trimLC (replAnchored p cur)) (trimLC originalName.data)

/-- `cleanGameName` of server-Copy1.js.  The safety check compares the
cleaned length against `3` and the retained-character fraction against
`0.3`; `10 * clean < 3 * original` is that comparison made exact (the
double rounding of `clean / original` cannot cross `0.3` for any string of
realistic length).  On failure the ORIGINAL argument is returned untrimmed. -/
def cleanGameName (originalName : String) : String :=
  let cand := cleanedCandidate originalName
  if cand.length < 3 ∨ 10 * cand.length < 3 * originalName.length then originalName
  else String.mk cand

/-!
### `searchSteamGame`: search-term variants and the multi-stage loop

The four inline `replace` regexes all end in `.*$`; `.` does not match a
line feed, so for the tail after the matched marker to be removable it must
be free of `'\n'` (`noLF`).
-/

def noLF (l : List Char) : Bool :=
  l.all (fun c => c ≠ '\n')

/-- `\s*` then `p`, with backtracking over the amount of whitespace taken. -/
def wsStarThen (p : List Char → Bool) : List Char → Bool
  | [] => p []
  | c :: r => p (c :: r) || (isSpaceJS c && wsStarThen p r)

/-- `\s+` then `p`. -/
def wsPlusThen (p : List Char → Bool) : List Char → Bool
  | [] => false
  | c :: r => isSpaceJS c && wsStarThen p r

/-- Truncate at the leftmost position where the matcher `m` fires
(`replace(/...*$/ , '')` deletes from there to the end). -/
def cutAtFirst (m : List Char → Bool) : List Char → List Char
  | [] => []
  | c :: r => if m (c :: r) then [] else c :: cutAtFirst m r

/-- One of the (case-insensitively compared, lowercase-given) markers,
followed by a `.*$`-consumable tail. -/
def markerCut (markers : List (List Char)) (l : List Char) : Bool :=
  markers.any (fun mk => prefixCI mk l && noLF (l.drop mk.length))

/-- `sym` followed by `\s*.*$`: the tail after the symbol matches
`\s*.*$` iff dropping leading whitespace leaves it line-feed-free. -/
def symThenRest (sym : Char) : List Char → Bool
  | c :: t => c = sym && noLF (t.dropWhile isSpaceJS)
  | [] => false

/-- `gameName.replace(/\s+(PC|Mac|Linux).*$/i, '')`. -/
def stripPlatformTail (s : String) : String :=
  String.mk (cutAtFirst (wsPlusThen (markerCut [ "pc".data, "mac".data, "linux".data])) s.data)

/-- `gameName.replace(/\s+(DLC|Expansion).*$/i, '')`. -/
def stripDlcTail (s : String) : String :=
  String.mk (cutAtFirst (wsPlusThen (markerCut [ "dlc".data, "expansion".data])) s.data)

/-- `gameName.replace(/\s*:\s*.*$/i, '')`. -/
def stripFromColon (s : String) : String :=
  String.mk (cutAtFirst (wsStarThen (symThenRest ':')) s.data)

/-- `gameName.replace(/\s*-\s*.*$/i, '')`. -/
def stripFromDash (s : String) : String :=
  String.mk (cutAtFirst (wsStarThen (symThenRest '-')) s.data)

/-- JS `split(' ')` (single-space separator, empty fields kept). -/
def splitOnSpaceL : List Char → List (List Char)
  | [] => [[]]
  | c :: r =>
    if c = ' ' then [] :: splitOnSpaceL r
    else match splitOnSpaceL r with
      | w :: ws => (c :: w) :: ws
      | [] => [[c]]

/-- JS `join(' ')`. -/
def joinSpaceL : List (List Char) → List Char
  | [] => []
  | [w] => w
  | w :: ws => w ++ ' ' :: joinSpaceL ws

/-- `gameName.split(' ').slice(0, -1).join(' ')`. -/
def dropLastWord (s : String) : String :=
  String.mk (joinSpaceL (splitOnSpaceL s.data).dropLast)

/-- `gameName.split(' ').slice(0, -2).join(' ')`. -/
def dropLastTwoWords (s : String) : String :=
  String.mk (joinSpaceL (splitOnSpaceL s.data).dropLast.dropLast)

/-- The `searchAttempts` array of `searchSteamGame`, in source order. -/
def searchAttempts (gameName : String) : List String :=
  [ gameName,
    cleanGameName gameName,
    stripPlatformTail gameName,
    stripDlcTail gameName,
    stripFromColon gameName,
    stripFromDash gameName,
    dropLastWord gameName,
    dropLastTwoWords gameName ]

/-- First-occurrence de-duplication, i.e. `[...new Set(xs)]`. -/
def dedupAux (seen : List String) : List String → List String
  | [] => []
  | x :: xs => if x ∈ seen then dedupAux seen xs else x :: dedupAux (x :: seen) xs

def dedupFirst (l : List String) : List String :=
  dedupAux [] l

/-- `.filter(name => name && name.trim().length > 2)`. -/
def variantKept (v : String) : Bool :=
  v ≠ "" && 2 < (trimS v).length

def uniqueAttempts (gameName : String) : List String :=
  (dedupFirst (searchAttempts gameName)).filter variantKept

structure SteamItem : Type where
  id : Nat
  name : String
  type : String
deriving DecidableEq

structure SteamSearchResult : Type where
  appid : Nat
  name : String
  type : String
  source : String
deriving DecidableEq

def isGameOrDlc (it : SteamItem) : Bool :=
  it.type = "game" || it.type = "dlc"

/-- Result built from a non-empty candidate list: `bestMatch` prefers a
`game`/`dlc` item, else the first item; `stage` is the 0-based loop index. -/
def mkSearchResult (stage : Nat) (attemptName : String) (it : SteamItem)
    (its : List SteamItem) : SteamSearchResult :=
  let best := ((it :: its).find? isGameOrDlc).getD it
  { appid := best.id, name := best.name, type := best.type,
    source := "Steam API (" ++ String.mk (natDigits (stage + 1)) ++ "단계: \"" ++ attemptName ++ "\")" }

/-- The search loop of `searchSteamGame` over the variant list; the cache
is modelled empty and a caught per-attempt network error is the same as an
empty candidate list. -/
def runSearch (search : String → List SteamItem) : Nat → List String → Option SteamSearchResult
  | _, [] => none
  | i, v :: rest =>
    match search (trimS v) with
    | [] => runSearch search (i + 1) rest
    | it :: its => some (mkSearchResult i (trimS v) it its)

def searchSteamGame (search : String → List SteamItem) (gameName : String) : Option SteamSearchResult :=
  runSearch search 0 (uniqueAttempts gameName)

/-!
### `fetchSteamPriceByAppId` and the `/api/compare` handler
-/

/-- `price_overview` of the catalog details endpoint; an absent `initial`
is modelled as `0` (both are falsy to the source's `initial || final`). -/
structure PriceOverview : Type where
  initial : Nat
  final : Nat
  discount_percent : Nat
deriving DecidableEq

structure SteamQuote : Type where
  exactName : String
  appid : Nat
  original : String
  final : String
  discount : Option String
  source : String
deriving DecidableEq

/-- Quote construction of `fetchSteamPriceByAppId` on a successful
details response: with a `price_overview`, format `initial || final` and
`final`; without one, both prices are the free sentinel. -/
def steamQuoteOfAppDetails (dataName gameName : String) (appId : Nat)
    (po : Option PriceOverview) : SteamQuote :=
  let exact := if dataName ≠ "" then dataName else gameName
  match po with
  | some p =>
    { exactName := exact, appid := appId,
      original := formatPriceFromCents (if p.initial ≠ 0 then p.initial else p.final),
      final := formatPriceFromCents p.final,
      discount :=
        if 0 < p.discount_percent then
          some ("-" ++ String.mk (natDigits p.discount_percent) ++ "%")
        else none,
      source := "" }
  | none =>
    { exactName := exact, appid := appId, original := "무료", final := "무료",
      discount := none, source := "" }

/-- A listed product as produced by the CDKeys crawl. -/
structure CDGame : Type where
  id : String
  originalName : String
  name : String
  price : String
  url : String
deriving DecidableEq

/-- JS subtraction where `none` is a non-finite operand. -/
def jsSub : Option Int → Option Int → Option Int
  | some a, some b => some (a - b)
  | _, _ => none

/-- JS `x >= m` where `none` (`NaN`) compares false. -/
def jsGeB : Option Int → Int → Bool
  | some a, m => decide (m ≤ a)
  | none, _ => false

structure GameData : Type where
  id : String
  name : String
  originalName : String
  exactName : String
  cdkeysPrice : Option Int
  cdkeysUrl : String
  steamOriginalPrice : Option Int
  steamFinalPrice : Option Int
  steamDiscount : Option String
  savings : Option Int
  savingsPercent : Option Int
  steamAppId : Nat
  source : String
  steamFound : Bool
deriving DecidableEq

/-- The `gameData` object built in the compare loop.  `savingsPercent`
models `Math.round((savings / steamOriginalPrice) * 100)`:
`(s / o) * 100 = (100 * s) / o` exactly, rounded by `jsRoundDiv`, with a
division by zero (or a non-finite operand) yielding the non-finite `none`. -/
def mkGameData (game : CDGame) (sp : SteamQuote) : GameData :=
  let cdkeysPrice := parsePrice game.price
  let steamOriginalPrice := parsePrice sp.original
  let savings := jsSub steamOriginalPrice cdkeysPrice
  { id := game.id
    name := game.name
    originalName := game.originalName
    exactName := if sp.exactName ≠ "" then sp.exactName else game.name
    cdkeysPrice := cdkeysPrice
    cdkeysUrl := game.url
    steamOriginalPrice := steamOriginalPrice
    steamFinalPrice := parsePrice sp.final
    steamDiscount := sp.discount
    savings := savings
    savingsPercent :=
      match savings, steamOriginalPrice with
      | some s, some o => if o = 0 then none else some (jsRoundDiv (100 * s) o)
      | _, _ => none
    steamAppId := sp.appid
    source := sp.source
    steamFound := true }

structure NotFoundGame : Type where
  game : CDGame
  steamFound : Bool
  reason : String
deriving DecidableEq

def mkNotFound (g : CDGame) : NotFoundGame :=
  { game := g, steamFound := false, reason := "Steam API에서 정보 없음 (모든 단계 실패)" }

/-- The per-product loop of the compare handler: a resolved, non-free
quote is compared and kept iff `savings >= minDifference`; an unresolved
product or a free-sentinel quote goes to `notFoundGames`. -/
def processGames (lookup : CDGame → Option SteamQuote) (minDifference : Int) :
    List CDGame → List GameData × List NotFoundGame
  | [] => ([], [])
  | g :: rest =>
    let prev := processGames lookup minDifference rest
    match lookup g with
    | some sp =>
      if sp.final = "무료" then (prev.1, mkNotFound g :: prev.2)
      else if jsGeB (mkGameData g sp).savings minDifference then
        (mkGameData g sp :: prev.1, prev.2)
      else prev
    | none => (prev.1, mkNotFound g :: prev.2)

/-- `b.savings - a.savings`-comparator order: `a` sorts (weakly) before
`b`.  Both fields are `some` for every element the handler sorts. -/
def savGe (a b : GameData) : Bool :=
  match a.savings, b.savings with
  | some x, some y => decide (y ≤ x)
  | _, _ => false

/-- Stable insertion producing the order of the (ES2019-stable) JS
`sort((a, b) => b.savings - a.savings)`. -/
def insertDesc (a : GameData) : List GameData → List GameData
  | [] => [a]
  | b :: l => if savGe a b then a :: b :: l else b :: insertDesc a l

def sortBySavingsDesc : List GameData → List GameData
  | [] => []
  | a :: l => insertDesc a (sortBySavingsDesc l)

/-- The three JSON response shapes of `POST /api/compare`: the catch-all
500 error, the early return for an empty listing (note: no `totalGames`,
`discountedGames` or `notFound` fields), and the full success shape. -/
inductive CompareResponse : Type
  | serverError (error : String) (details : String)
  | emptyListing (success : Bool) (games : List GameData) (message : String)
  | full (success : Bool) (totalGames : Nat) (discountedGames : Nat)
      (notFoundCount : Nat) (games : List GameData) (notFound : List NotFoundGame)
deriving DecidableEq

/-- The `/api/compare` handler, given the outcome of `fetchCDKeysGames`
(`Except.error` = the listing fetch threw) and the resolution oracle
(`fetchSteamPrice`, `none` = unresolved after all stages or a caught
per-product error). -/
def compareHandler (fetched : Except String (List CDGame))
    (lookup : CDGame → Option SteamQuote) (minDifference : Int) : CompareResponse :=
  match fetched with
  | Except.error e => CompareResponse.serverError "가격 비교 중 오류가 발생했습니다." e
  | Except.ok cdkeysGames =>
    if cdkeysGames.length = 0 then
      CompareResponse.emptyListing true [] "게임을 찾을 수 없습니다."
    else
      let pr := processGames lookup minDifference cdkeysGames
      CompareResponse.full true cdkeysGames.length (sortBySavingsDesc pr.1).length
        pr.2.length (sortBySavingsDesc pr.1) pr.2

def respGames : CompareResponse → List GameData
  | CompareResponse.emptyListing _ gs _ => gs
  | CompareResponse.full _ _ _ _ gs _ => gs
  | CompareResponse.serverError _ _ => []

def respNotFound : CompareResponse → List NotFoundGame
  | CompareResponse.full _ _ _ _ _ nf => nf
  | _ => []

def isFullResp : CompareResponse → Bool
  | CompareResponse.full _ _ _ _ _ _ => true
  | _ => false

/-- The canonical decimal numeral `a.bc` (two fraction digits). -/
def mkDecimal (a b : Nat) : List Char :=
  natDigits a ++ '.' :: [digitChar (b / 10), digitChar (b % 10)]

def c9Games : List CDGame :=
  [ ⟨"1", "A", "A", "₩1000", "u"⟩, ⟨"2", "B", "B", "₩1000", "u"⟩,
    ⟨"3", "C", "C", "₩1000", "u"⟩ ]

def c9Lookup : CDGame → Option SteamQuote := fun g =>
  if g.id = "1" then some ⟨"A", 1, "₩1100", "₩1100", none, ""⟩
  else if g.id = "2" then some ⟨"B", 2, "₩1500", "₩1500", none, ""⟩
  else some ⟨"C", 3, "₩1050", "₩1050", none, ""⟩

def c1Game : CDGame := ⟨"g1", "Game A", "Game A", "₩1000", "u"⟩

def c1Quote : SteamQuote := ⟨"Game A", 7, "₩50000", "₩40000", none, ""⟩

def c7gX : CDGame := ⟨"x", "X", "X", "₩1000", "u"⟩

def c7gY : CDGame := ⟨"y", "Y", "Y", "₩1000", "u"⟩

def c7p : CDGame := ⟨"p", "P", "P", "₩1000", "u"⟩

def c7q : SteamQuote := ⟨"P", 5, "무료", "무료", none, ""⟩

def c7Lookup : CDGame → Option SteamQuote := fun g =>
  if g.id = "p" then some c7q
  else if g.id = "x" then some ⟨"X", 6, "₩9000", "₩9000", none, ""⟩
  else some ⟨"Y", 7, "₩7000", "₩7000", none, ""⟩

def c8ga : CDGame := ⟨"a", "A", "A", "₩1000", "u"⟩

def c8gb : CDGame := ⟨"b", "B", "B", "₩2000", "u"⟩

def c8Lookup : CDGame → Option SteamQuote := fun g =>
  if g.id = "b" then some ⟨"B", 2, "₩3000", "₩3000", none, ""⟩ else none

def c2Search : String → List SteamItem := fun s =>
  if s = "Dead Space" then [⟨10, "Dead Space", "game"⟩] else []

example : parsePrice "₩1,234" = some 1234 := by decide
example : parsePrice "Freedom Fighters $5.99" = some 0 := by decide
example : parsePrice "무료" = some 0 := by decide
example : parsePrice "" = some 0 := by decide

example : formatPriceFromCents 0 = "무료" := by decide
example : formatPriceFromCents 40 = "₩0" := by decide
example : formatPriceFromCents 1000 = "₩10" := by decide
example : formatPriceFromCents 123456700 = "₩1,234,567" := by decide

example : replAnchored [Tok.ws1, Tok.lit "pc".data, Tok.ws0] "Dead Space PC ".data = "Dead Space".data := by decide
example : replAnchored [Tok.ws1, Tok.lit "pc".data, Tok.ws0] "PC".data = "PC".data := by decide

example : cleanGameName "Cyberpunk 2077 PC" = "Cyberpunk 2077" := by decide
example : cleanGameName "Elden Ring Steam Key" = "Elden Ring" := by decide
example : cleanGameName "A PC" = "A PC" := by decide
example : cleanGameName "Abc Key DLC PC" = "Abc Key DLC PC" := by decide
example : cleanGameName "Stray (PC-DLC)" = "Stray" := by decide

example : uniqueAttempts "Dead Space PC" = ["Dead Space PC", "Dead Space", "Dead"] := by decide
example : stripFromColon "Horizon: Zero Dawn" = "Horizon" := by decide
example : dropLastTwoWords "a b c" = "a" := by decide

/-- `Rat.floor` is the `⌊⌋` of the `FloorRing` instance on `ℚ`. -/
theorem ratFloor_eq_intFloor (q : ℚ) : q.floor = ⌊q⌋ :=
  (Rat.floor_def' q).trans Rat.floor_def.symm

theorem intDiv_eq_floor (m n : Int) (hn : 0 < n) :
    m / n = ⌊(m : ℚ) / (n : ℚ)⌋ := by
  have hn' : ((n.toNat : ℕ) : ℤ) = n := Int.toNat_of_nonneg (le_of_lt hn)
  have hcast : ((n.toNat : ℕ) : ℚ) = (n : ℚ) := by
    exact_mod_cast congrArg (fun z : ℤ => (z : ℚ)) hn'
  rw [← hcast, Rat.floor_intCast_div_natCast m n.toNat, hn']

/-- `jsRoundDiv` agrees with rounding the exact rational quotient. -/
theorem jsRoundDiv_eq (a b : Int) (hb : b ≠ 0) :
    jsRoundDiv a b = jsRound ((a : ℚ) / (b : ℚ)) := by
  have hhalf : ∀ (m n : Int), n ≠ 0 →
      (m : ℚ) / (n : ℚ) + 1 / 2 = ((2 * m + n : Int) : ℚ) / ((2 * n : Int) : ℚ) := by
    intro m n hn
    have hn0 : (n : ℚ) ≠ 0 := by
      exact_mod_cast hn
    push_cast
    field_simp
    ring
  have hjs : ∀ q : ℚ, jsRound q = ⌊q + 1 / 2⌋ := by
    intro q
    rw [jsRound, ratFloor_eq_intFloor]
  rcases lt_or_gt_of_ne hb with hneg | hpos
  · have h1 : jsRoundDiv a b = (2 * (-a) + (-b)) / (2 * (-b)) := by
      rw [jsRoundDiv, if_neg (by omega)]
    have hflip : (a : ℚ) / (b : ℚ) = ((-a : Int) : ℚ) / ((-b : Int) : ℚ) := by
      push_cast
      rw [div_neg, neg_div, neg_neg]
    rw [h1, hjs, hflip, hhalf _ _ (by omega),
      intDiv_eq_floor (2 * -a + -b) (2 * -b) (by omega)]
  · have h1 : jsRoundDiv a b = (2 * a + b) / (2 * b) := by
      rw [jsRoundDiv, if_pos hpos]
    rw [h1, hjs, hhalf _ _ hb, intDiv_eq_floor (2 * a + b) (2 * b) (by omega)]

/-!
### Character-class and digit-string lemmas
-/

theorem isDigit_bounds {c : Char} (h : isDigitChar c = true) :
    48 ≤ c.toNat ∧ c.toNat ≤ 57 := by
  simp only [isDigitChar, Bool.and_eq_true, decide_eq_true_eq] at h
  exact h

theorem digit_not_space {c : Char} (h : isDigitChar c = true) : isSpaceJS c = false := by
  have hb := isDigit_bounds h
  simp only [isSpaceJS, Bool.or_eq_false_iff, decide_eq_false_iff_not]
  omega

theorem digit_ne_char {c : Char} (h : isDigitChar c = true) (d : Char)
    (hd : d.toNat < 48 ∨ 57 < d.toNat) : c ≠ d := by
  intro he
  subst he
  have := isDigit_bounds h
  omega

theorem toLower_fix {c : Char} (h : c.toNat < 65 ∨ 90 < c.toNat) : toLowerChar c = c := by
  unfold toLowerChar
  rw [if_neg]
  omega

theorem digitChar_toNat {n : Nat} (h : n < 10) : (digitChar n).toNat = 48 + n := by
  interval_cases n <;> decide

theorem isDigit_digitChar {n : Nat} (h : n < 10) : isDigitChar (digitChar n) = true := by
  interval_cases n <;> decide

theorem natDigitsF_spec : ∀ f n, n < f →
    natDigitsF f n ≠ [] ∧ (∀ c ∈ natDigitsF f n, isDigitChar c = true) ∧
      digitsVal (natDigitsF f n) = n := by
  intro f
  induction f with
  | zero => intro n h; omega
  | succ f ih =>
    intro n h
    by_cases h10 : n < 10
    · refine ⟨by simp [natDigitsF, h10], ?_, ?_⟩
      · intro c hc
        simp only [natDigitsF, if_pos h10, List.mem_singleton] at hc
        subst hc
        exact isDigit_digitChar h10
      · simp [natDigitsF, if_pos h10, digitsVal, digitChar_toNat h10]
    · have hlt : n / 10 < f := by omega
      obtain ⟨hne, hdig, hval⟩ := ih (n / 10) hlt
      constructor
      · simp [natDigitsF, if_neg h10]
      constructor
      · intro c hc
        simp only [natDigitsF, if_neg h10, List.mem_append, List.mem_singleton] at hc
        rcases hc with hc | hc
        · exact hdig c hc
        · subst hc
          exact isDigit_digitChar (by omega)
      · simp only [natDigitsF, if_neg h10, digitsVal, List.foldl_append]
        have hmod : (digitChar (n % 10)).toNat = 48 + n % 10 := digitChar_toNat (by omega)
        simp only [List.foldl_cons, List.foldl_nil, hmod]
        have : List.foldl (fun acc c => 10 * acc + (c.toNat - 48)) 0 (natDigitsF f (n / 10)) = n / 10 := hval
        rw [this]
        omega

theorem natDigits_ne_nil (n : Nat) : natDigits n ≠ [] :=
  (natDigitsF_spec (n + 1) n (by omega)).1

theorem natDigits_all_digit (n : Nat) : ∀ c ∈ natDigits n, isDigitChar c = true :=
  (natDigitsF_spec (n + 1) n (by omega)).2.1

theorem digitsVal_natDigits (n : Nat) : digitsVal (natDigits n) = n :=
  (natDigitsF_spec (n + 1) n (by omega)).2.2

theorem natDigitsF_head_ne_zero : ∀ f n, n < f → 1 ≤ n →
    ∀ c cs, natDigitsF f n = c :: cs → 49 ≤ c.toNat := by
  intro f
  induction f with
  | zero => intro n h; omega
  | succ f ih =>
    intro n h h1 c cs hc
    by_cases h10 : n < 10
    · simp only [natDigitsF, if_pos h10, List.cons.injEq] at hc
      rw [← hc.1, digitChar_toNat h10]
      omega
    · simp only [natDigitsF, if_neg h10] at hc
      obtain ⟨hne, _, _⟩ := natDigitsF_spec f (n / 10) (by omega)
      obtain ⟨d, ds, hd⟩ := List.exists_cons_of_ne_nil hne
      rw [hd] at hc
      simp only [List.cons_append, List.cons.injEq] at hc
      rcases hc with ⟨hdc, hcs⟩
      subst hdc
      exact ih (n / 10) (by omega) (by omega) d ds hd

theorem natDigits_head_ne_zero {n : Nat} (h1 : 1 ≤ n) :
    ∀ c cs, natDigits n = c :: cs → 49 ≤ c.toNat :=
  natDigitsF_head_ne_zero (n + 1) n (by omega) h1

/-- `takeWhile` walks through a block that satisfies the predicate. -/
theorem takeWhile_all_append {p : Char → Bool} :
    ∀ (l t : List Char), (∀ c ∈ l, p c = true) → (l ++ t).takeWhile p = l ++ t.takeWhile p := by
  intro l
  induction l with
  | nil => intro t _; rfl
  | cons c r ih =>
    intro t h
    have hc : p c = true := h c (by simp)
    simp only [List.cons_append, List.takeWhile_cons, hc, if_true]
    rw [ih t (fun d hd => h d (by simp [hd]))]

theorem dropWhile_all_append {p : Char → Bool} :
    ∀ (l t : List Char), (∀ c ∈ l, p c = true) → (l ++ t).dropWhile p = t.dropWhile p := by
  intro l
  induction l with
  | nil => intro t _; rfl
  | cons c r ih =>
    intro t h
    have hc : p c = true := h c (by simp)
    simp only [List.cons_append, List.dropWhile_cons, hc, if_true]
    exact ih t (fun d hd => h d (by simp [hd]))

theorem takeWhile_nonmatch {p : Char → Bool} {t : List Char}
    (h : ∀ c cs, t = c :: cs → p c = false) : t.takeWhile p = [] := by
  cases t with
  | nil => rfl
  | cons c cs => simp [List.takeWhile_cons, h c cs rfl]

theorem dropWhile_nonmatch {p : Char → Bool} {t : List Char}
    (h : ∀ c cs, t = c :: cs → p c = false) : t.dropWhile p = t := by
  cases t with
  | nil => rfl
  | cons c cs => simp [List.dropWhile_cons, h c cs rfl]

theorem parseDecPrefix_digits (n : Nat) (t : List Char)
    (ht : ∀ c cs, t = c :: cs → isDigitChar c = false) :
    parseDecPrefix (natDigits n ++ t) = some n := by
  unfold parseDecPrefix
  rw [takeWhile_all_append _ _ (natDigits_all_digit n), takeWhile_nonmatch ht,
    List.append_nil]
  simp [natDigits_ne_nil n, List.isEmpty_iff, digitsVal_natDigits n]

theorem parseIntAbs_eq_dec (l : List Char)
    (h : ∀ x r, l = '0' :: x :: r → ¬(x = 'x' ∨ x = 'X')) :
    parseIntAbs l = parseDecPrefix l := by
  unfold parseIntAbs
  split
  · next x r => rw [if_neg (h x r rfl)]
  · rfl

theorem jsParseIntL_digits (n : Nat) (t : List Char)
    (ht : ∀ c cs, t = c :: cs → isDigitChar c = false ∧ c ≠ 'x' ∧ c ≠ 'X') :
    jsParseIntL (natDigits n ++ t) = some (n : Int) := by
  obtain ⟨c, cs, hc⟩ := List.exists_cons_of_ne_nil (natDigits_ne_nil n)
  have hcd : isDigitChar c = true := natDigits_all_digit n c (by rw [hc]; simp)
  have hl : natDigits n ++ t = c :: (cs ++ t) := by rw [hc]; rfl
  have hhex : ∀ x r, natDigits n ++ t = '0' :: x :: r → ¬(x = 'x' ∨ x = 'X') := by
    intro x r he
    by_cases hn : n = 0
    · subst hn
      have h0 : natDigits 0 = ['0'] := rfl
      rw [h0] at he
      simp only [List.cons_append, List.nil_append, List.cons.injEq] at he
      have hxr : t = x :: r := by
        simpa using he
      have hprops := ht x r hxr
      rintro (h | h)
      · exact hprops.2.1 h
      · exact hprops.2.2 h
    · have h49 := natDigits_head_ne_zero (n := n) (by omega) c cs hc
      rw [hl] at he
      simp only [List.cons.injEq] at he
      have : c.toNat = 48 := by rw [he.1]; rfl
      omega
  have htd : ∀ c2 cs2, t = c2 :: cs2 → isDigitChar c2 = false := by
    intro c2 cs2 h2
    exact (ht c2 cs2 h2).1
  unfold jsParseIntL
  rw [hl, List.dropWhile_cons, if_neg (by simp [digit_not_space hcd])]
  split
  · next r heq =>
    exfalso
    have : c = '-' := by
      simpa using congrArg (fun L => L.headD ' ') heq
    exact digit_ne_char hcd '-' (by left; decide) this
  · next r heq =>
    exfalso
    have : c = '+' := by
      simpa using congrArg (fun L => L.headD ' ') heq
    exact digit_ne_char hcd '+' (by left; decide) this
  · rw [← hl, parseIntAbs_eq_dec _ hhex, parseDecPrefix_digits n t htd]
    rfl

theorem commasAux_mem : ∀ (l : List Char) (k : Nat) (c : Char),
    c ∈ commasAux k l → c ∈ l ∨ c = ',' := by
  intro l
  induction l with
  | nil => intro k c hc; exact absurd hc (by simp [commasAux])
  | cons d r ih =>
    intro k c hc
    by_cases hk : k = 3
    · subst hk
      rw [show commasAux 3 (d :: r) = ',' :: d :: commasAux 1 r from by
        simp [commasAux]] at hc
      rcases List.mem_cons.mp hc with h1 | hc2
      · exact Or.inr h1
      · rcases List.mem_cons.mp hc2 with h2 | h3
        · exact Or.inl (by rw [h2]; exact List.mem_cons_self d r)
        · rcases ih 1 c h3 with h | h
          · exact Or.inl (List.mem_cons_of_mem d h)
          · exact Or.inr h
    · rw [show commasAux k (d :: r) = d :: commasAux (k + 1) r from by
        simp [commasAux, hk]] at hc
      rcases List.mem_cons.mp hc with h2 | h3
      · exact Or.inl (by rw [h2]; exact List.mem_cons_self d r)
      · rcases ih (k + 1) c h3 with h | h
        · exact Or.inl (List.mem_cons_of_mem d h)
        · exact Or.inr h

theorem commasAux_filter :
    ∀ (l : List Char), (∀ c ∈ l, isDigitChar c = true) → ∀ k,
      (commasAux k l).filter (fun c => !(c = '₩' || c = ',' || isSpaceJS c)) = l := by
  intro l
  induction l with
  | nil => intro _ k; rfl
  | cons c r ih =>
    intro hl k
    have hc : isDigitChar c = true := hl c (by simp)
    have h1 : c ≠ '₩' := digit_ne_char hc '₩' (by right; decide)
    have h2 : c ≠ ',' := digit_ne_char hc ',' (by left; decide)
    have hkeep : (!(c = '₩' || c = ',' || isSpaceJS c)) = true := by
      simp [h1, h2, digit_not_space hc]
    have ihr := ih (fun d hd => hl d (by simp [hd]))
    have hcomma : ¬((fun c => !(c = '₩' || c = ',' || isSpaceJS c)) ',' = true) := by decide
    by_cases hk : k = 3
    · subst hk
      rw [show commasAux 3 (c :: r) = ',' :: c :: commasAux 1 r from by
        simp [commasAux]]
      rw [List.filter_cons, if_neg hcomma, List.filter_cons, if_pos hkeep, ihr 1]
    · rw [show commasAux k (c :: r) = c :: commasAux (k + 1) r from by
        simp [commasAux, hk]]
      rw [List.filter_cons, if_pos hkeep, ihr (k + 1)]

theorem toLocale_data (n : Nat) :
    (toLocaleStringKR n).data = (commasAux 0 (natDigits n).reverse).reverse := rfl

theorem toLocale_filter (n : Nat) :
    (toLocaleStringKR n).data.filter (fun c => !(c = '₩' || c = ',' || isSpaceJS c)) =
      natDigits n := by
  rw [toLocale_data, List.filter_reverse,
    commasAux_filter _ (fun c hc => natDigits_all_digit n c (List.mem_reverse.mp hc)) 0,
    List.reverse_reverse]

theorem toLocale_mem (n : Nat) :
    ∀ c ∈ (toLocaleStringKR n).data, isDigitChar c = true ∨ c = ',' := by
  intro c hc
  rw [toLocale_data, List.mem_reverse] at hc
  rcases commasAux_mem _ 0 c hc with h | h
  · left; exact natDigits_all_digit n c (List.mem_reverse.mp h)
  · right; exact h

theorem containsList_free_false :
    ∀ (L : List Char), (∀ c ∈ L, c.toNat ≠ 102) → containsList "free".data L = false := by
  intro L
  induction L with
  | nil => intro _; rfl
  | cons c r ih =>
    intro h
    have hcf : c ≠ 'f' := by
      intro he
      exact h c (by simp) (by rw [he]; rfl)
    have hfr : "free".data = 'f' :: "ree".data := rfl
    show (prefixCS "free".data (c :: r) || containsList "free".data r) = false
    rw [hfr]
    show ((decide (c = 'f') && prefixCS "ree".data r) || containsList ('f' :: "ree".data) r) = false
    rw [← hfr, ih (fun d hd => h d (by simp [hd]))]
    simp [hcf]

/-- Parsing a `₩`-prefixed, comma-grouped amount (with an arbitrary tail
that contributes no digits before its first kept character and cannot
create a `free` marker) recovers the amount exactly. -/
theorem parsePriceL_won (n : Nat) (t : List Char)
    (hfree : ∀ c ∈ t, (toLowerChar c).toNat ≠ 102)
    (hfilter : ∀ c cs,
      t.filter (fun c => !(c = '₩' || c = ',' || isSpaceJS c)) = c :: cs →
        isDigitChar c = false ∧ c ≠ 'x' ∧ c ≠ 'X') :
    parsePriceL ('₩' :: ((toLocaleStringKR n).data ++ t)) = some (n : Int) := by
  have hmem : ∀ c ∈ '₩' :: ((toLocaleStringKR n).data ++ t),
      (toLowerChar c).toNat ≠ 102 := by
    intro c hc
    rcases List.mem_cons.mp hc with h | h
    · rw [h]; decide
    · rcases List.mem_append.mp h with h | h
      · rcases toLocale_mem n c h with hd | hd
        · have hb := isDigit_bounds hd
          rw [toLower_fix (by omega)]
          omega
        · rw [hd]; decide
      · exact hfree c h
  have hnotfree :
      containsList "free".data (('₩' :: ((toLocaleStringKR n).data ++ t)).map toLowerChar) = false := by
    apply containsList_free_false
    intro c hc
    obtain ⟨d, hd, hdc⟩ := List.mem_map.mp hc
    rw [← hdc]
    exact hmem d hd
  have hnotmu : ¬('₩' :: ((toLocaleStringKR n).data ++ t) = "무료".data) := by
    intro he
    have h0 := congrArg (fun L => L.headD ' ') he
    simp at h0
  unfold parsePriceL
  rw [if_neg (by simp), if_neg (by rw [hnotfree]; simp [hnotmu]),
    if_pos (by simp [List.contains_cons])]
  have hfilt : ('₩' :: ((toLocaleStringKR n).data ++ t)).filter
      (fun c => !(c = '₩' || c = ',' || isSpaceJS c)) =
      natDigits n ++ t.filter (fun c => !(c = '₩' || c = ',' || isSpaceJS c)) := by
    rw [List.filter_cons, if_neg (by decide), List.filter_append, toLocale_filter]
  rw [hfilt]
  exact jsParseIntL_digits n _ hfilter

/-- `parsePrice` on a plain `₩`-formatted amount. -/
theorem parsePrice_won (n : Nat) :
    parsePrice ("₩" ++ toLocaleStringKR n) = some (n : Int) := by
  have hdata : ("₩" ++ toLocaleStringKR n).data = '₩' :: ((toLocaleStringKR n).data ++ []) := by
    rw [List.append_nil, String.data_append]
    rfl
  rw [parsePrice, hdata]
  exact parsePriceL_won n [] (by simp) (by simp)

/-- Value of a nonzero formatted price: `formatPriceFromCents` prints
`Math.round(cents / 100)` and `parsePrice` reads it back. -/
theorem parsePrice_format (cents : Nat) (h : cents ≠ 0) :
    parsePrice (formatPriceFromCents cents) = some ((cents + 50) / 100 : Nat) := by
  have hr : (jsRoundDiv (cents : Int) 100).toNat = (cents + 50) / 100 := by
    rw [jsRoundDiv, if_pos (by omega)]
    omega
  rw [formatPriceFromCents, if_neg h, hr]
  exact parsePrice_won ((cents + 50) / 100)

theorem mkDecimal_chars (a b : Nat) (hb : b < 100) :
    ∀ c ∈ mkDecimal a b, isDigitChar c = true ∨ c = '.' := by
  intro c hc
  rcases List.mem_append.mp hc with h | h
  · exact Or.inl (natDigits_all_digit a c h)
  · rcases List.mem_cons.mp h with h1 | h2
    · exact Or.inr h1
    · rcases List.mem_cons.mp h2 with h3 | h4
      · exact Or.inl (h3 ▸ isDigit_digitChar (by omega))
      · rcases List.mem_singleton.mp h4 with h5
        exact Or.inl (h5 ▸ isDigit_digitChar (by omega))

theorem mkDecimal_ne (a b : Nat) (hb : b < 100) (x : Char)
    (hx : x.toNat < 48 ∨ 57 < x.toNat) (hdot : x ≠ '.') :
    ∀ c ∈ mkDecimal a b, c ≠ x := by
  intro c hc
  rcases mkDecimal_chars a b hb c hc with h | h
  · exact digit_ne_char h x hx
  · rw [h]; exact fun he => hdot he.symm

theorem not_contains_of_ne :
    ∀ (L : List Char) (x : Char), (∀ c ∈ L, c ≠ x) → L.contains x = false := by
  intro L x h
  induction L with
  | nil => rfl
  | cons c r ih =>
    rw [List.contains_cons]
    have h1 : (x == c) = false := by
      have := h c (by simp)
      simp [beq_iff_eq]
      exact fun he => this he.symm
    rw [h1, ih (fun d hd => h d (by simp [hd]))]
    rfl

theorem takeWhile_all_eq {p : Char → Bool} (l : List Char) (h : ∀ c ∈ l, p c = true) :
    l.takeWhile p = l := by
  conv_lhs => rw [← List.append_nil l]
  rw [takeWhile_all_append _ _ h]
  simp

theorem dropWhile_all_eq {p : Char → Bool} (l : List Char) (h : ∀ c ∈ l, p c = true) :
    l.dropWhile p = [] := by
  conv_lhs => rw [← List.append_nil l]
  rw [dropWhile_all_append _ _ h]
  rfl

theorem parseFloatAbs_decimal (a b : Nat) (hb : b < 100) :
    parseFloatAbs (mkDecimal a b) = some ((a : ℚ) + (b : ℚ) / 100) := by
  obtain ⟨c, cs, hc⟩ := List.exists_cons_of_ne_nil (natDigits_ne_nil a)
  have hcd : isDigitChar c = true := natDigits_all_digit a c (by rw [hc]; simp)
  have htl_digits : ∀ d ∈ [digitChar (b / 10), digitChar (b % 10)], isDigitChar d = true := by
    intro d hd
    rcases List.mem_cons.mp hd with h1 | h2
    · exact h1 ▸ isDigit_digitChar (by omega)
    · rcases List.mem_singleton.mp h2 with h3
      exact h3 ▸ isDigit_digitChar (by omega)
  have hdotd : ∀ (c2 : Char) (cs2 : List Char),
      ('.' :: [digitChar (b / 10), digitChar (b % 10)] : List Char) = c2 :: cs2 →
        isDigitChar c2 = false := by
    intro c2 cs2 he
    have : c2 = '.' := by
      have := congrArg (fun L => List.headD L ' ') he
      simpa using this.symm
    rw [this]
    decide
  have hInf : ¬(prefixCS "Infinity".data (mkDecimal a b) = true) := by
    rw [mkDecimal, hc]
    show ¬((decide (c = 'I') && prefixCS "nfinity".data (cs ++ '.' :: _)) = true)
    simp [digit_ne_char hcd 'I' (by right; decide)]
  have h1 : (mkDecimal a b).takeWhile isDigitChar = natDigits a := by
    rw [mkDecimal, takeWhile_all_append _ _ (natDigits_all_digit a),
      takeWhile_nonmatch hdotd, List.append_nil]
  have h2 : (mkDecimal a b).dropWhile isDigitChar =
      '.' :: [digitChar (b / 10), digitChar (b % 10)] := by
    rw [mkDecimal, dropWhile_all_append _ _ (natDigits_all_digit a),
      dropWhile_nonmatch hdotd]
  have h3 : ([digitChar (b / 10), digitChar (b % 10)] : List Char).takeWhile isDigitChar =
      [digitChar (b / 10), digitChar (b % 10)] := takeWhile_all_eq _ htl_digits
  have h4 : ([digitChar (b / 10), digitChar (b % 10)] : List Char).dropWhile isDigitChar = [] :=
    dropWhile_all_eq _ htl_digits
  have hval : digitsVal [digitChar (b / 10), digitChar (b % 10)] = b := by
    simp only [digitsVal, List.foldl_cons, List.foldl_nil,
      digitChar_toNat (show b / 10 < 10 by omega), digitChar_toNat (show b % 10 < 10 by omega)]
    omega
  unfold parseFloatAbs
  rw [if_neg hInf]
  simp only [h1, h2, h3, h4]
  rw [if_neg (by
    rintro ⟨hemp, _⟩
    exact natDigits_ne_nil a (List.isEmpty_iff.mp hemp))]
  show some (applyExponent ((digitsVal (natDigits a) : ℚ) +
    (digitsVal [digitChar (b / 10), digitChar (b % 10)] : ℚ) /
      (10 : ℚ) ^ ([digitChar (b / 10), digitChar (b % 10)] : List Char).length) []) = _
  rw [digitsVal_natDigits, hval]
  show some ((a : ℚ) + (b : ℚ) / (10 : ℚ) ^ (2 : Nat)) = _
  norm_num

theorem jsParseFloatL_eq_abs (c : Char) (r : List Char) (hcd : isDigitChar c = true) :
    jsParseFloatL (c :: r) = parseFloatAbs (c :: r) := by
  unfold jsParseFloatL
  rw [List.dropWhile_cons, if_neg (by simp [digit_not_space hcd])]
  split
  · next r2 heq =>
    exfalso
    have : c = '-' := by
      have := congrArg (fun L => L.headD ' ') heq
      simpa using this
    exact digit_ne_char hcd '-' (by left; decide) this
  · next r2 heq =>
    exfalso
    have : c = '+' := by
      have := congrArg (fun L => L.headD ' ') heq
      simpa using this
    exact digit_ne_char hcd '+' (by left; decide) this
  · rfl

theorem mkDecimal_freeSafe (a b : Nat) (hb : b < 100) :
    ∀ c ∈ mkDecimal a b, (toLowerChar c).toNat ≠ 102 := by
  intro c hc
  rcases mkDecimal_chars a b hb c hc with h | h
  · have hbnd := isDigit_bounds h
    rw [toLower_fix (by omega)]
    omega
  · rw [h]; decide

theorem filter_mkDecimal (a b : Nat) (hb : b < 100) (sym : Char)
    (hx : sym.toNat < 48 ∨ 57 < sym.toNat) (hdot : sym ≠ '.') :
    (mkDecimal a b).filter (fun c => !(c = sym || c = ',' || isSpaceJS c)) = mkDecimal a b := by
  apply List.filter_eq_self.mpr
  intro c hc
  have h1 : c ≠ sym := mkDecimal_ne a b hb sym hx hdot c hc
  have h2 : c ≠ ',' := by
    rcases mkDecimal_chars a b hb c hc with h | h
    · exact digit_ne_char h ',' (by left; decide)
    · rw [h]; decide
  have h3 : isSpaceJS c = false := by
    rcases mkDecimal_chars a b hb c hc with h | h
    · exact digit_not_space h
    · rw [h]; decide
  simp [h1, h2, h3]

theorem mkDecimal_head (a b : Nat) :
    ∃ c cs, mkDecimal a b = c :: cs ∧ isDigitChar c = true := by
  obtain ⟨c, cs, hc⟩ := List.exists_cons_of_ne_nil (natDigits_ne_nil a)
  refine ⟨c, cs ++ '.' :: [digitChar (b / 10), digitChar (b % 10)], ?_, ?_⟩
  · rw [mkDecimal, hc]; rfl
  · exact natDigits_all_digit a c (by rw [hc]; simp)

theorem parsePriceL_dollar (a b : Nat) (hb : b < 100) :
    parsePriceL ('$' :: mkDecimal a b) =
      some (jsRound (((a : ℚ) + (b : ℚ) / 100) * 1320)) := by
  have hfree : containsList "free".data (('$' :: mkDecimal a b).map toLowerChar) = false := by
    apply containsList_free_false
    intro c hc
    obtain ⟨d, hd, hdc⟩ := List.mem_map.mp hc
    rcases List.mem_cons.mp hd with h | h
    · rw [← hdc, h]; decide
    · rw [← hdc]; exact mkDecimal_freeSafe a b hb d h
  have hmu : ¬('$' :: mkDecimal a b = "무료".data) := by
    intro he
    have h0 : '$' = '무' := by simpa using congrArg (fun L => L.headD ' ') he
    exact absurd h0 (by decide)
  have hwon : ('$' :: mkDecimal a b).contains '₩' = false := by
    apply not_contains_of_ne
    intro c hc
    rcases List.mem_cons.mp hc with h | h
    · rw [h]; decide
    · exact mkDecimal_ne a b hb '₩' (by right; decide) (by decide) c h
  obtain ⟨c, cs, hmkcons, hcd⟩ := mkDecimal_head a b
  unfold parsePriceL
  rw [if_neg (by simp),
    if_neg (by
      rintro (h | h)
      · exact hmu h
      · rw [hfree] at h
        exact Bool.false_ne_true h),
    if_neg (by intro h; rw [hwon] at h; exact Bool.false_ne_true h),
    if_pos (by simp [List.contains_cons])]
  rw [List.filter_cons, if_neg (by decide),
    filter_mkDecimal a b hb '$' (by left; decide) (by decide)]
  rw [hmkcons, jsParseFloatL_eq_abs c cs hcd, ← hmkcons, parseFloatAbs_decimal a b hb]
  rfl

theorem parsePriceL_euro (a b : Nat) (hb : b < 100) :
    parsePriceL ('€' :: mkDecimal a b) =
      some (jsRound (((a : ℚ) + (b : ℚ) / 100) * 1430)) := by
  have hfree : containsList "free".data (('€' :: mkDecimal a b).map toLowerChar) = false := by
    apply containsList_free_false
    intro c hc
    obtain ⟨d, hd, hdc⟩ := List.mem_map.mp hc
    rcases List.mem_cons.mp hd with h | h
    · rw [← hdc, h]; decide
    · rw [← hdc]; exact mkDecimal_freeSafe a b hb d h
  have hmu : ¬('€' :: mkDecimal a b = "무료".data) := by
    intro he
    have h0 : '€' = '무' := by simpa using congrArg (fun L => L.headD ' ') he
    exact absurd h0 (by decide)
  have hwon : ('€' :: mkDecimal a b).contains '₩' = false := by
    apply not_contains_of_ne
    intro c hc
    rcases List.mem_cons.mp hc with h | h
    · rw [h]; decide
    · exact mkDecimal_ne a b hb '₩' (by right; decide) (by decide) c h
  have hdollar : ('€' :: mkDecimal a b).contains '$' = false := by
    apply not_contains_of_ne
    intro c hc
    rcases List.mem_cons.mp hc with h | h
    · rw [h]; decide
    · exact mkDecimal_ne a b hb '$' (by left; decide) (by decide) c h
  obtain ⟨c, cs, hmkcons, hcd⟩ := mkDecimal_head a b
  unfold parsePriceL
  rw [if_neg (by simp),
    if_neg (by
      rintro (h | h)
      · exact hmu h
      · rw [hfree] at h
        exact Bool.false_ne_true h),
    if_neg (by intro h; rw [hwon] at h; exact Bool.false_ne_true h),
    if_neg (by intro h; rw [hdollar] at h; exact Bool.false_ne_true h),
    if_pos (by simp [List.contains_cons])]
  rw [List.filter_cons, if_neg (by decide),
    filter_mkDecimal a b hb '€' (by right; decide) (by decide)]
  rw [hmkcons, jsParseFloatL_eq_abs c cs hcd, ← hmkcons, parseFloatAbs_decimal a b hb]
  rfl

theorem parsePriceL_pound (a b : Nat) (hb : b < 100) :
    parsePriceL ('£' :: mkDecimal a b) =
      some (jsRound (((a : ℚ) + (b : ℚ) / 100) * 1670)) := by
  have hfree : containsList "free".data (('£' :: mkDecimal a b).map toLowerChar) = false := by
    apply containsList_free_false
    intro c hc
    obtain ⟨d, hd, hdc⟩ := List.mem_map.mp hc
    rcases List.mem_cons.mp hd with h | h
    · rw [← hdc, h]; decide
    · rw [← hdc]; exact mkDecimal_freeSafe a b hb d h
  have hmu : ¬('£' :: mkDecimal a b = "무료".data) := by
    intro he
    have h0 : '£' = '무' := by simpa using congrArg (fun L => L.headD ' ') he
    exact absurd h0 (by decide)
  have hwon : ('£' :: mkDecimal a b).contains '₩' = false := by
    apply not_contains_of_ne
    intro c hc
    rcases List.mem_cons.mp hc with h | h
    · rw [h]; decide
    · exact mkDecimal_ne a b hb '₩' (by right; decide) (by decide) c h
  have hdollar : ('£' :: mkDecimal a b).contains '$' = false := by
    apply not_contains_of_ne
    intro c hc
    rcases List.mem_cons.mp hc with h | h
    · rw [h]; decide
    · exact mkDecimal_ne a b hb '$' (by left; decide) (by decide) c h
  have heuro : ('£' :: mkDecimal a b).contains '€' = false := by
    apply not_contains_of_ne
    intro c hc
    rcases List.mem_cons.mp hc with h | h
    · rw [h]; decide
    · exact mkDecimal_ne a b hb '€' (by right; decide) (by decide) c h
  obtain ⟨c, cs, hmkcons, hcd⟩ := mkDecimal_head a b
  unfold parsePriceL
  rw [if_neg (by simp),
    if_neg (by
      rintro (h | h)
      · exact hmu h
      · rw [hfree] at h
        exact Bool.false_ne_true h),
    if_neg (by intro h; rw [hwon] at h; exact Bool.false_ne_true h),
    if_neg (by intro h; rw [hdollar] at h; exact Bool.false_ne_true h),
    if_neg (by intro h; rw [heuro] at h; exact Bool.false_ne_true h),
    if_pos (by simp [List.contains_cons])]
  rw [List.filter_cons, if_neg (by decide),
    filter_mkDecimal a b hb '£' (by right; decide) (by decide)]
  rw [hmkcons, jsParseFloatL_eq_abs c cs hcd, ← hmkcons, parseFloatAbs_decimal a b hb]
  rfl

/-!
### Compare-loop and sorting lemmas
-/

theorem processGames_cons (lk : CDGame → Option SteamQuote) (m : Int) (g : CDGame)
    (rest : List CDGame) :
    processGames lk m (g :: rest) =
      match lk g with
      | some sp =>
        if sp.final = "무료" then
          ((processGames lk m rest).1, mkNotFound g :: (processGames lk m rest).2)
        else if jsGeB (mkGameData g sp).savings m then
          (mkGameData g sp :: (processGames lk m rest).1, (processGames lk m rest).2)
        else processGames lk m rest
      | none => ((processGames lk m rest).1, mkNotFound g :: (processGames lk m rest).2) := rfl

theorem mem_processGames_games (lk : CDGame → Option SteamQuote) (m : Int) :
    ∀ (gs : List CDGame) (x : GameData),
      x ∈ (processGames lk m gs).1 ↔
        ∃ g, g ∈ gs ∧ ∃ sp, lk g = some sp ∧ ¬(sp.final = "무료") ∧
          jsGeB (mkGameData g sp).savings m = true ∧ x = mkGameData g sp := by
  intro gs
  induction gs with
  | nil =>
    intro x
    constructor
    · intro hx
      exact absurd hx (by simp [processGames])
    · rintro ⟨g, hg, _⟩
      exact absurd hg (by simp)
  | cons g rest ih =>
    intro x
    constructor
    · intro hx
      rw [processGames_cons] at hx
      cases hg : lk g with
      | none =>
        simp only [hg] at hx
        obtain ⟨g2, hg2, rs⟩ := (ih x).mp hx
        exact ⟨g2, List.mem_cons_of_mem g hg2, rs⟩
      | some sp =>
        simp only [hg] at hx
        by_cases hfin : sp.final = "무료"
        · rw [if_pos hfin] at hx
          obtain ⟨g2, hg2, rs⟩ := (ih x).mp hx
          exact ⟨g2, List.mem_cons_of_mem g hg2, rs⟩
        · rw [if_neg hfin] at hx
          by_cases hge : jsGeB (mkGameData g sp).savings m = true
          · rw [if_pos hge] at hx
            rcases List.mem_cons.mp hx with h1 | h2
            · exact ⟨g, List.mem_cons_self g rest, sp, hg, hfin, hge, h1⟩
            · obtain ⟨g2, hg2, rs⟩ := (ih x).mp h2
              exact ⟨g2, List.mem_cons_of_mem g hg2, rs⟩
          · rw [if_neg (by simpa using hge)] at hx
            obtain ⟨g2, hg2, rs⟩ := (ih x).mp hx
            exact ⟨g2, List.mem_cons_of_mem g hg2, rs⟩
    · rintro ⟨g2, hg2, sp, hsp, hfin, hge, hx⟩
      rw [processGames_cons]
      rcases List.mem_cons.mp hg2 with h1 | h2
      · subst h1
        simp only [hsp]
        rw [if_neg hfin, if_pos hge]
        subst hx
        exact List.mem_cons_self _ _
      · have hmem := (ih x).mpr ⟨g2, h2, sp, hsp, hfin, hge, hx⟩
        cases hlk : lk g with
        | none =>
          simp only [hlk]
          exact hmem
        | some sp2 =>
          simp only [hlk]
          by_cases hf2 : sp2.final = "무료"
          · rw [if_pos hf2]
            exact hmem
          · rw [if_neg hf2]
            by_cases hg2e : jsGeB (mkGameData g sp2).savings m = true
            · rw [if_pos hg2e]
              exact List.mem_cons_of_mem _ hmem
            · rw [if_neg (by simpa using hg2e)]
              exact hmem

theorem mem_insertDesc (a x : GameData) :
    ∀ l, x ∈ insertDesc a l ↔ x = a ∨ x ∈ l := by
  intro l
  induction l with
  | nil => simp [insertDesc]
  | cons b r ih =>
    by_cases h : savGe a b = true
    · rw [show insertDesc a (b :: r) = a :: b :: r from by simp [insertDesc, h]]
      simp
    · rw [show insertDesc a (b :: r) = b :: insertDesc a r from by simp [insertDesc, h]]
      simp only [List.mem_cons, ih]
      tauto

theorem mem_sortDesc (x : GameData) :
    ∀ l, x ∈ sortBySavingsDesc l ↔ x ∈ l := by
  intro l
  induction l with
  | nil => simp [sortBySavingsDesc]
  | cons a r ih =>
    show x ∈ insertDesc a (sortBySavingsDesc r) ↔ _
    rw [mem_insertDesc, ih]
    simp

theorem jsGeB_isSome {x : Option Int} {m : Int} (h : jsGeB x m = true) : x.isSome = true := by
  cases x with
  | none => exact absurd h (by simp [jsGeB])
  | some v => rfl

theorem savGe_some {u v : GameData} (h : savGe u v = true) :
    ∃ x y, u.savings = some x ∧ v.savings = some y ∧ y ≤ x := by
  unfold savGe at h
  cases hu : u.savings with
  | none => rw [hu] at h; exact absurd h (by simp)
  | some x =>
    cases hv : v.savings with
    | none => rw [hu, hv] at h; exact absurd h (by simp)
    | some y =>
      rw [hu, hv] at h
      simp only [decide_eq_true_eq] at h
      exact ⟨x, y, rfl, rfl, h⟩

theorem savGe_total {a b : GameData} (ha : a.savings.isSome = true)
    (hb : b.savings.isSome = true) (h : ¬(savGe a b = true)) : savGe b a = true := by
  obtain ⟨x, hx⟩ := Option.isSome_iff_exists.mp ha
  obtain ⟨y, hy⟩ := Option.isSome_iff_exists.mp hb
  unfold savGe at h ⊢
  rw [hx, hy] at h
  rw [hx, hy]
  simp only [decide_eq_true_eq] at h ⊢
  omega

theorem savGe_trans {a b c : GameData} (h1 : savGe a b = true) (h2 : savGe b c = true) :
    savGe a c = true := by
  obtain ⟨x, y, hux, hvy, hxy⟩ := savGe_some h1
  obtain ⟨y2, z, hvy2, hwz, hyz⟩ := savGe_some h2
  have hyy : y2 = y := by
    rw [hvy] at hvy2
    exact (Option.some.injEq y2 y).mp hvy2.symm
  unfold savGe
  rw [hux, hwz]
  simp only [decide_eq_true_eq]
  omega

theorem pairwise_insertDesc (a : GameData) (ha : a.savings.isSome = true) :
    ∀ l, (∀ x ∈ l, x.savings.isSome = true) →
      List.Pairwise (fun u v => savGe u v = true) l →
      List.Pairwise (fun u v => savGe u v = true) (insertDesc a l) := by
  intro l
  induction l with
  | nil =>
    intro _ _
    simp [insertDesc]
  | cons b r ih =>
    intro hl hp
    rcases List.pairwise_cons.mp hp with ⟨hbr, hr⟩
    by_cases h : savGe a b = true
    · rw [show insertDesc a (b :: r) = a :: b :: r from by simp [insertDesc, h]]
      refine List.pairwise_cons.mpr ⟨?_, hp⟩
      intro x hx
      rcases List.mem_cons.mp hx with h1 | h2
      · rw [h1]; exact h
      · exact savGe_trans h (hbr x h2)
    · rw [show insertDesc a (b :: r) = b :: insertDesc a r from by simp [insertDesc, h]]
      refine List.pairwise_cons.mpr ⟨?_, ?_⟩
      · intro x hx
        rcases (mem_insertDesc a x r).mp hx with h1 | h2
        · rw [h1]
          exact savGe_total ha (hl b (by simp)) h
        · exact hbr x h2
      · exact ih (fun x hx => hl x (by simp [hx])) hr

theorem pairwise_sortDesc :
    ∀ l, (∀ x ∈ l, x.savings.isSome = true) →
      List.Pairwise (fun u v => savGe u v = true) (sortBySavingsDesc l) := by
  intro l
  induction l with
  | nil =>
    intro _
    simp [sortBySavingsDesc]
  | cons a r ih =>
    intro hl
    show List.Pairwise _ (insertDesc a (sortBySavingsDesc r))
    refine pairwise_insertDesc a (hl a (by simp)) _ ?_ (ih (fun x hx => hl x (by simp [hx])))
    intro x hx
    exact hl x (by simp [(mem_sortDesc x r).mp hx])

theorem runSearch_none_iff (search : String → List SteamItem) :
    ∀ (l : List String) (i : Nat),
      runSearch search i l = none ↔ ∀ v ∈ l, search (trimS v) = [] := by
  intro l
  induction l with
  | nil => intro i; simp [runSearch]
  | cons v rest ih =>
    intro i
    cases hs : search (trimS v) with
    | nil =>
      rw [show runSearch search i (v :: rest) = runSearch search (i + 1) rest from by
        simp [runSearch, hs]]
      rw [ih (i + 1)]
      constructor
      · intro h v2 hv2
        rcases List.mem_cons.mp hv2 with h1 | h2
        · rw [h1]; exact hs
        · exact h v2 h2
      · intro h v2 hv2
        exact h v2 (List.mem_cons_of_mem v hv2)
    | cons it its =>
      rw [show runSearch search i (v :: rest) =
          some (mkSearchResult i (trimS v) it its) from by simp [runSearch, hs]]
      constructor
      · intro h
        exact absurd h (by simp)
      · intro h
        have := h v (List.mem_cons_self v rest)
        rw [hs] at this
        exact absurd this (by simp)

theorem runSearch_first (search : String → List SteamItem) :
    ∀ (l : List String) (i k : Nat) (hk : k < l.length),
      (∀ j (hj : j < l.length), j < k → search (trimS (l.get ⟨j, hj⟩)) = []) →
      ∀ it its, search (trimS (l.get ⟨k, hk⟩)) = it :: its →
        runSearch search i l = some (mkSearchResult (i + k) (trimS (l.get ⟨k, hk⟩)) it its) := by
  intro l
  induction l with
  | nil =>
    intro i k hk
    exact absurd hk (by simp)
  | cons v rest ih =>
    intro i k hk hprev it its hs
    cases k with
    | zero =>
      have hv : (v :: rest).get ⟨0, hk⟩ = v := rfl
      rw [hv] at hs ⊢
      rw [show runSearch search i (v :: rest) =
        some (mkSearchResult i (trimS v) it its) from by simp [runSearch, hs]]
      rw [Nat.add_zero]
    | succ k2 =>
      have h0 : search (trimS v) = [] := hprev 0 (by simp) (by omega)
      have hget : (v :: rest).get ⟨k2 + 1, hk⟩ = rest.get ⟨k2, by
        have := hk
        simp only [List.length_cons] at this
        omega⟩ := rfl
      rw [show runSearch search i (v :: rest) = runSearch search (i + 1) rest from by
        simp [runSearch, h0]]
      rw [hget] at hs ⊢
      have harith : i + 1 + k2 = i + (k2 + 1) := by omega
      rw [← harith]
      exact ih (i + 1) k2 _ (fun j hj hjk => hprev (j + 1) (by simp only [List.length_cons]; omega) (by omega)) it its hs

theorem dedupAux_sublist : ∀ (l seen : List String), List.Sublist (dedupAux seen l) l := by
  intro l
  induction l with
  | nil => intro seen; exact List.Sublist.refl []
  | cons x xs ih =>
    intro seen
    by_cases h : x ∈ seen
    · rw [show dedupAux seen (x :: xs) = dedupAux seen xs from by simp [dedupAux, h]]
      exact (ih seen).cons x
    · rw [show dedupAux seen (x :: xs) = x :: dedupAux (x :: seen) xs from by
        simp [dedupAux, h]]
      exact (ih (x :: seen)).cons₂ x

theorem dedupAux_nodup : ∀ (l seen : List String),
    (dedupAux seen l).Nodup ∧ ∀ x ∈ dedupAux seen l, x ∉ seen := by
  intro l
  induction l with
  | nil => intro seen; exact ⟨List.nodup_nil, by simp [dedupAux]⟩
  | cons x xs ih =>
    intro seen
    by_cases h : x ∈ seen
    · rw [show dedupAux seen (x :: xs) = dedupAux seen xs from by simp [dedupAux, h]]
      exact ih seen
    · rw [show dedupAux seen (x :: xs) = x :: dedupAux (x :: seen) xs from by
        simp [dedupAux, h]]
      obtain ⟨hnd, hnotin⟩ := ih (x :: seen)
      refine ⟨List.nodup_cons.mpr ⟨?_, hnd⟩, ?_⟩
      · intro hx
        exact (hnotin x hx) (by simp)
      · intro y hy
        rcases List.mem_cons.mp hy with h1 | h2
        · rw [h1]; exact h
        · intro hys
          exact (hnotin y h2) (by simp [hys])

theorem uniqueAttempts_nodup (name : String) : (uniqueAttempts name).Nodup :=
  List.Nodup.filter _ (dedupAux_nodup (searchAttempts name) []).1

theorem uniqueAttempts_sublist (name : String) :
    List.Sublist (uniqueAttempts name) (searchAttempts name) :=
  List.Sublist.trans (List.filter_sublist _) (dedupAux_sublist (searchAttempts name) [])

theorem uniqueAttempts_kept (name : String) :
    ∀ v ∈ uniqueAttempts name, ¬(v = "") ∧ 2 < (trimS v).length := by
  intro v hv
  have h := List.of_mem_filter hv
  simp only [variantKept, Bool.and_eq_true, decide_eq_true_eq] at h
  exact ⟨by simpa using h.1, h.2⟩

theorem compareHandler_ok_cons (lk : CDGame → Option SteamQuote) (m : Int)
    (g : CDGame) (rest : List CDGame) :
    compareHandler (Except.ok (g :: rest)) lk m =
      CompareResponse.full true (g :: rest).length
        (sortBySavingsDesc (processGames lk m (g :: rest)).1).length
        (processGames lk m (g :: rest)).2.length
        (sortBySavingsDesc (processGames lk m (g :: rest)).1)
        (processGames lk m (g :: rest)).2 := by
  simp only [compareHandler]
  rw [if_neg (by simp)]

theorem respGames_ok (lk : CDGame → Option SteamQuote) (m : Int) (gs : List CDGame) :
    respGames (compareHandler (Except.ok gs) lk m) =
      sortBySavingsDesc (processGames lk m gs).1 := by
  cases gs with
  | nil => rfl
  | cons g rest =>
    rw [compareHandler_ok_cons]
    rfl

/-!
### Claim theorems
-/

/-- C4: if the suffix-stripping pass of `cleanGameName` would leave a
result shorter than 3 characters, or one retaining less than 30% of the
original characters, then `cleanGameName` returns its argument unchanged,
discarding all stripping. -/
theorem c4_clean_safety_fallback (T : String)
    (h : (cleanedCandidate T).length < 3 ∨ 10 * (cleanedCandidate T).length < 3 * T.length) :
    cleanGameName T = T := by
  unfold cleanGameName
  rw [if_pos h]

/-- C4 witness: `"Abc Key DLC PC"` strips (via the `PC`, `DLC` and `Key`
rules) down to `"Abc"`, 3 of 14 characters (21% < 30%), so the original is
returned unchanged. -/
theorem c4_clean_safety_fallback_witness :
    ((cleanedCandidate "Abc Key DLC PC").length < 3 ∨
      10 * (cleanedCandidate "Abc Key DLC PC").length < 3 * ("Abc Key DLC PC" : String).length) ∧
    cleanGameName "Abc Key DLC PC" = "Abc Key DLC PC" :=
  ⟨by decide, c4_clean_safety_fallback "Abc Key DLC PC" (by decide)⟩

/-- C10: any price text containing the letters `free` case-insensitively —
even with a currency symbol and amount present — parses to `0`, because
the free-marker substring test runs before currency detection. -/
theorem c10_free_marker_first (s : String)
    (h : containsList "free".data (s.data.map toLowerChar) = true) :
    parsePrice s = some 0 := by
  unfold parsePrice parsePriceL
  by_cases he : s.data.isEmpty = true
  · rw [if_pos he]
  · rw [if_neg he, if_pos (Or.inr h)]

/-- C10 witness: `"Freedom Fighters $5.99"` contains `free` (in
`Freedom`) and parses to `0` despite the `$5.99`. -/
theorem c10_free_marker_first_witness :
    containsList "free".data (("Freedom Fighters $5.99" : String).data.map toLowerChar) = true ∧
    parsePrice "Freedom Fighters $5.99" = some 0 :=
  ⟨by decide, c10_free_marker_first "Freedom Fighters $5.99" (by decide)⟩

/-- C3: a foreign-currency price text `$a.bc` / `€a.bc` / `£a.bc` parses
to `Math.round(X * rate)` with the fixed rates 1320, 1430, 1670; a
`₩`-marked text is parsed directly as an integer with grouping commas and
whitespace stripped, and `₩` takes priority over a foreign symbol present
in the same string. -/
theorem c3_parse_rates (a b n : Nat) (hb : b < 100) :
    (parsePrice (String.mk ('$' :: mkDecimal a b)) =
        some (jsRound (((a : ℚ) + (b : ℚ) / 100) * 1320)) ∧
      parsePrice (String.mk ('€' :: mkDecimal a b)) =
        some (jsRound (((a : ℚ) + (b : ℚ) / 100) * 1430)) ∧
      parsePrice (String.mk ('£' :: mkDecimal a b)) =
        some (jsRound (((a : ℚ) + (b : ℚ) / 100) * 1670))) ∧
    parsePrice ("₩" ++ toLocaleStringKR n) = some (n : Int) ∧
    parsePrice ("₩" ++ toLocaleStringKR n ++ " $1.50") = some (n : Int) := by
  refine ⟨⟨parsePriceL_dollar a b hb, parsePriceL_euro a b hb, parsePriceL_pound a b hb⟩,
    parsePrice_won n, ?_⟩
  have hdata : ("₩" ++ toLocaleStringKR n ++ " $1.50").data =
      '₩' :: ((toLocaleStringKR n).data ++ " $1.50".data) := by
    rw [String.data_append, String.data_append, List.append_assoc]
    rfl
  rw [parsePrice, hdata]
  refine parsePriceL_won n (" $1.50".data) ?_ ?_
  · intro c hc
    fin_cases hc <;> decide
  · intro c cs h
    rw [show ((" $1.50".data).filter (fun c => !(c = '₩' || c = ',' || isSpaceJS c))) =
      '$' :: "1.50".data from by decide] at h
    have hc : c = '$' := by
      have h0 := congrArg (fun L => L.headD ' ') h
      simpa using h0.symm
    rw [hc]
    exact ⟨by decide, by decide, by decide⟩

/-- C3 witness: `$29.99` converts at 1320 to `₩39587`
(`round(29.99 * 1320) = round(39586.8)`), and `₩1,234` parses to `1234`. -/
theorem c3_parse_rates_witness :
    parsePrice "$29.99" = some 39587 ∧ parsePrice "₩1,234" = some 1234 := by
  have h := c3_parse_rates 29 99 1234 (by decide)
  constructor
  · have h1 := h.1.1
    rw [show String.mk ('$' :: mkDecimal 29 99) = "$29.99" from by decide] at h1
    rw [h1, jsRound, ratFloor_eq_intFloor]
    norm_num
  · have h2 := h.2.1
    rw [show ("₩" ++ toLocaleStringKR 1234) = "₩1,234" from by decide] at h2
    exact h2

/-- C6 counterexample: the quote built from `price_overview`
`{initial: 40, final: 1000}` has `final = "₩10" ≠ "무료"`, so it passes the
free-sentinel exclusion, yet its `original` is `"₩0"` (40 cents rounds to
₩0), which parses to `0` — the savings-percent divisor is zero and the
computed `savingsPercent` is non-finite. -/
theorem c6_divisor_counterexample :
    ¬((steamQuoteOfAppDetails "G" "G" 1 (some ⟨40, 1000, 0⟩)).final = "무료") ∧
    parsePrice (steamQuoteOfAppDetails "G" "G" 1 (some ⟨40, 1000, 0⟩)).original = some 0 ∧
    (mkGameData ⟨"g1", "G", "G", "Free", "u"⟩
      (steamQuoteOfAppDetails "G" "G" 1 (some ⟨40, 1000, 0⟩))).savingsPercent = none :=
  ⟨by decide, by decide, by decide⟩

/-- C6 amended: the free-sentinel exclusion alone does not make the
divisor nonzero; it is nonzero for every resolved quote whose effective
original amount (`initial || final`, in cents) is at least 50, i.e. rounds
to at least ₩1. -/
theorem c6_divisor_nonzero_amended (dn gn : String) (aid : Nat) (p : PriceOverview)
    (g : CDGame) (hp : 50 ≤ (if p.initial ≠ 0 then p.initial else p.final)) :
    ∃ k : Int, 0 < k ∧
      (mkGameData g (steamQuoteOfAppDetails dn gn aid (some p))).steamOriginalPrice = some k := by
  set eff := if p.initial ≠ 0 then p.initial else p.final with heff
  have heff0 : eff ≠ 0 := by omega
  have hso : (mkGameData g (steamQuoteOfAppDetails dn gn aid (some p))).steamOriginalPrice =
      parsePrice (formatPriceFromCents eff) := rfl
  rw [hso, parsePrice_format eff heff0]
  refine ⟨((eff + 50) / 100 : Nat), ?_, rfl⟩
  have h1 : 1 ≤ (eff + 50) / 100 := by omega
  exact_mod_cast h1

/-- C6 amended witness: a quote with original and final at ₩79,000
(7,900,000 cents) has a positive parsed divisor. -/
theorem c6_divisor_nonzero_amended_witness :
    (50 ≤ (if (7900000 : Nat) ≠ 0 then (7900000 : Nat) else 7900000)) ∧
    ∃ k : Int, 0 < k ∧
      (mkGameData ⟨"g1", "G", "G", "₩1000", "u"⟩
        (steamQuoteOfAppDetails "G" "G" 1 (some ⟨7900000, 7900000, 0⟩))).steamOriginalPrice =
          some k :=
  ⟨by decide,
    c6_divisor_nonzero_amended "G" "G" 1 ⟨7900000, 7900000, 0⟩
      ⟨"g1", "G", "G", "₩1000", "u"⟩ (by decide)⟩

/-- C9: the games list of every compare response is sorted in descending
order of `savings`; concretely, three products with savings 100, 500, 50
(in listing order) come out ordered 500, 100, 50. -/
theorem c9_results_sorted_desc (fetched : Except String (List CDGame))
    (lookup : CDGame → Option SteamQuote) (m : Int) :
    List.Pairwise (fun u v => savGe u v = true)
      (respGames (compareHandler fetched lookup m)) ∧
    (respGames (compareHandler (Except.ok c9Games) c9Lookup 0)).map (fun g => g.savings) =
      [some 500, some 100, some 50] := by
  constructor
  · cases fetched with
    | error e => exact List.Pairwise.nil
    | ok gs =>
      rw [respGames_ok]
      apply pairwise_sortDesc
      intro x hx
      obtain ⟨g, hg, sp, hsp, hfin, hge, hx2⟩ := (mem_processGames_games lookup m gs x).mp hx
      rw [hx2]
      exact jsGeB_isSome hge
  · decide

/-- C1: in every compare response, each listed game's recorded `savings`
equals `steamOriginalPrice - cdkeysPrice`, and a resolved product whose
quote is not the free sentinel appears in the games list iff its savings
is at least the caller's `minDifference`. -/
theorem c1_savings_and_threshold (lookup : CDGame → Option SteamQuote) (m : Int)
    (gs : List CDGame) :
    (∀ gd ∈ respGames (compareHandler (Except.ok gs) lookup m),
        gd.savings = jsSub gd.steamOriginalPrice gd.cdkeysPrice) ∧
    (∀ g ∈ gs, ∀ sp, lookup g = some sp → ¬(sp.final = "무료") →
        (mkGameData g sp ∈ respGames (compareHandler (Except.ok gs) lookup m) ↔
          jsGeB (mkGameData g sp).savings m = true)) := by
  constructor
  · intro gd hgd
    rw [respGames_ok, mem_sortDesc] at hgd
    obtain ⟨g, hg, sp, hsp, hfin, hge, hx⟩ := (mem_processGames_games lookup m gs gd).mp hgd
    rw [hx]
    rfl
  · intro g hg sp hsp hfin
    rw [respGames_ok, mem_sortDesc, mem_processGames_games]
    constructor
    · rintro ⟨g2, hg2, sp2, hsp2, hfin2, hge2, hx2⟩
      rw [show (mkGameData g sp).savings = (mkGameData g2 sp2).savings from by rw [hx2]]
      exact hge2
    · intro hge
      exact ⟨g, hg, sp, hsp, hfin, hge, rfl⟩

/-- C1 witness: a product at ₩1,000 against an original price of ₩50,000
(savings 49,000 ≥ 5,000) is listed in the compare response. -/
theorem c1_savings_and_threshold_witness :
    mkGameData c1Game c1Quote ∈
      respGames (compareHandler (Except.ok [c1Game]) (fun _ => some c1Quote) 5000) := by
  have h := (c1_savings_and_threshold (fun _ => some c1Quote) 5000 [c1Game]).2 c1Game
    (by simp) c1Quote rfl (by decide)
  exact h.mpr (by decide)

/-- C5 counterexample: on an empty listing the handler responds with the
reduced `{success, games, message}` shape, not the full shape — there are
no `totalGames`, `discountedGames` or `notFound` fields. -/
theorem c5_empty_listing_counterexample :
    compareHandler (Except.ok []) (fun _ => none) 5000 =
      CompareResponse.emptyListing true [] "게임을 찾을 수 없습니다." ∧
    isFullResp (compareHandler (Except.ok []) (fun _ => none) 5000) = false :=
  ⟨rfl, rfl⟩

/-- C5 amended: a compare request either fully fails with an error
response (when fetching the listing throws), or returns the full
`{success, totalGames, discountedGames, notFoundGames, games, notFound}`
shape for a non-empty listing; an EMPTY listing instead gets the reduced
`{success: true, games: [], message}` early-return shape. -/
theorem c5_response_shapes (fetched : Except String (List CDGame))
    (lookup : CDGame → Option SteamQuote) (m : Int) :
    (∀ e, fetched = Except.error e →
      compareHandler fetched lookup m =
        CompareResponse.serverError "가격 비교 중 오류가 발생했습니다." e) ∧
    (fetched = Except.ok [] →
      compareHandler fetched lookup m =
        CompareResponse.emptyListing true [] "게임을 찾을 수 없습니다.") ∧
    (∀ g rest, fetched = Except.ok (g :: rest) →
      compareHandler fetched lookup m =
        CompareResponse.full true (g :: rest).length
          (sortBySavingsDesc (processGames lookup m (g :: rest)).1).length
          (processGames lookup m (g :: rest)).2.length
          (sortBySavingsDesc (processGames lookup m (g :: rest)).1)
          (processGames lookup m (g :: rest)).2) := by
  refine ⟨?_, ?_, ?_⟩
  · intro e he
    subst he
    rfl
  · intro he
    subst he
    rfl
  · intro g rest he
    subst he
    exact compareHandler_ok_cons lookup m g rest

/-- C5 witness: the error shape on a failed listing fetch, and the full
shape on a one-product listing whose product resolves to nothing. -/
theorem c5_response_shapes_witness :
    compareHandler (Except.error "E") (fun _ => none) 5000 =
      CompareResponse.serverError "가격 비교 중 오류가 발생했습니다." "E" ∧
    compareHandler (Except.ok [c1Game]) (fun _ => none) 5000 =
      CompareResponse.full true 1 0 1 [] [mkNotFound c1Game] := by
  constructor
  · exact (c5_response_shapes (Except.error "E") (fun _ => none) 5000).1 "E" rfl
  · have h := (c5_response_shapes (Except.ok [c1Game]) (fun _ => none) 5000).2.2 c1Game [] rfl
    rw [h]
    decide

theorem respNotFound_ok (lk : CDGame → Option SteamQuote) (m : Int) (g : CDGame)
    (rest : List CDGame) :
    respNotFound (compareHandler (Except.ok (g :: rest)) lk m) =
      (processGames lk m (g :: rest)).2 := by
  rw [compareHandler_ok_cons]
  rfl

theorem processGames_cons_none (lk : CDGame → Option SteamQuote) (m : Int)
    (a : CDGame) (rest : List CDGame) (ha : lk a = none) :
    processGames lk m (a :: rest) =
      ((processGames lk m rest).1, mkNotFound a :: (processGames lk m rest).2) := by
  rw [processGames_cons]
  simp only [ha]

theorem processGames_cons_free (lk : CDGame → Option SteamQuote) (m : Int)
    (a : CDGame) (rest : List CDGame) (sp : SteamQuote) (ha : lk a = some sp)
    (hf : sp.final = "무료") :
    processGames lk m (a :: rest) =
      ((processGames lk m rest).1, mkNotFound a :: (processGames lk m rest).2) := by
  rw [processGames_cons]
  simp only [ha]
  rw [if_pos hf]

theorem processGames_cons_keep (lk : CDGame → Option SteamQuote) (m : Int)
    (a : CDGame) (rest : List CDGame) (sp : SteamQuote) (ha : lk a = some sp)
    (hf : ¬(sp.final = "무료")) (hge : jsGeB (mkGameData a sp).savings m = true) :
    processGames lk m (a :: rest) =
      (mkGameData a sp :: (processGames lk m rest).1, (processGames lk m rest).2) := by
  rw [processGames_cons]
  simp only [ha]
  rw [if_neg hf, if_pos hge]

theorem processGames_cons_skip (lk : CDGame → Option SteamQuote) (m : Int)
    (a : CDGame) (rest : List CDGame) (sp : SteamQuote) (ha : lk a = some sp)
    (hf : ¬(sp.final = "무료")) (hge : ¬(jsGeB (mkGameData a sp).savings m = true)) :
    processGames lk m (a :: rest) = processGames lk m rest := by
  rw [processGames_cons]
  simp only [ha]
  rw [if_neg hf, if_neg (by simpa using hge)]

/-- C7: a product whose quote is the free sentinel is recorded in the
unmatched list (in listing position) and never contributes to the games
list: the games list is the one computed from the listing without that
product, so the ordering of all other items is unchanged. -/
theorem c7_free_sentinel (lookup : CDGame → Option SteamQuote) (m : Int)
    (l₁ l₂ : List CDGame) (p : CDGame) (q : SteamQuote)
    (hq : lookup p = some q) (hfree : q.final = "무료") :
    (processGames lookup m (l₁ ++ p :: l₂)).1 = (processGames lookup m (l₁ ++ l₂)).1 ∧
    (processGames lookup m (l₁ ++ p :: l₂)).2 =
      (processGames lookup m l₁).2 ++ mkNotFound p :: (processGames lookup m l₂).2 ∧
    respGames (compareHandler (Except.ok (l₁ ++ p :: l₂)) lookup m) =
      sortBySavingsDesc (processGames lookup m (l₁ ++ l₂)).1 ∧
    mkNotFound p ∈ respNotFound (compareHandler (Except.ok (l₁ ++ p :: l₂)) lookup m) := by
  have h12 : ∀ (l : List CDGame),
      (processGames lookup m (l ++ p :: l₂)).1 = (processGames lookup m (l ++ l₂)).1 ∧
      (processGames lookup m (l ++ p :: l₂)).2 =
        (processGames lookup m l).2 ++ mkNotFound p :: (processGames lookup m l₂).2 := by
    intro l
    induction l with
    | nil =>
      rw [List.nil_append, List.nil_append, processGames_cons_free lookup m p l₂ q hq hfree]
      exact ⟨rfl, rfl⟩
    | cons a l ih =>
      rw [List.cons_append, List.cons_append]
      cases ha : lookup a with
      | none =>
        rw [processGames_cons_none lookup m a (l ++ p :: l₂) ha,
          processGames_cons_none lookup m a (l ++ l₂) ha,
          processGames_cons_none lookup m a l ha]
        refine ⟨ih.1, ?_⟩
        show mkNotFound a :: (processGames lookup m (l ++ p :: l₂)).2 = _
        rw [ih.2, List.cons_append]
      | some sp =>
        by_cases hf2 : sp.final = "무료"
        · rw [processGames_cons_free lookup m a (l ++ p :: l₂) sp ha hf2,
            processGames_cons_free lookup m a (l ++ l₂) sp ha hf2,
            processGames_cons_free lookup m a l sp ha hf2]
          refine ⟨ih.1, ?_⟩
          show mkNotFound a :: (processGames lookup m (l ++ p :: l₂)).2 = _
          rw [ih.2, List.cons_append]
        · by_cases hge : jsGeB (mkGameData a sp).savings m = true
          · rw [processGames_cons_keep lookup m a (l ++ p :: l₂) sp ha hf2 hge,
              processGames_cons_keep lookup m a (l ++ l₂) sp ha hf2 hge,
              processGames_cons_keep lookup m a l sp ha hf2 hge]
            refine ⟨?_, ih.2⟩
            show mkGameData a sp :: (processGames lookup m (l ++ p :: l₂)).1 = _
            rw [ih.1]
          · rw [processGames_cons_skip lookup m a (l ++ p :: l₂) sp ha hf2 hge,
              processGames_cons_skip lookup m a (l ++ l₂) sp ha hf2 hge,
              processGames_cons_skip lookup m a l sp ha hf2 hge]
            exact ih
  obtain ⟨h1, h2⟩ := h12 l₁
  refine ⟨h1, h2, ?_, ?_⟩
  · rw [respGames_ok, h1]
  · cases hl : (l₁ ++ p :: l₂) with
    | nil => exact absurd hl (by simp)
    | cons g0 rest0 =>
      rw [respNotFound_ok, ← hl, h2]
      exact List.mem_append_right _ (List.mem_cons_self _ _)

/-- C7 witness: with the free-sentinel product `c7p` between `c7gX` and
`c7gY`, the games list equals the one computed without `c7p` and
`mkNotFound c7p` appears in the unmatched list. -/
theorem c7_free_sentinel_witness :
    (processGames c7Lookup 5000 ([c7gX] ++ c7p :: [c7gY])).1 =
      (processGames c7Lookup 5000 ([c7gX] ++ [c7gY])).1 ∧
    (processGames c7Lookup 5000 ([c7gX] ++ c7p :: [c7gY])).2 =
      (processGames c7Lookup 5000 [c7gX]).2 ++ mkNotFound c7p ::
        (processGames c7Lookup 5000 [c7gY]).2 ∧
    respGames (compareHandler (Except.ok ([c7gX] ++ c7p :: [c7gY])) c7Lookup 5000) =
      sortBySavingsDesc (processGames c7Lookup 5000 ([c7gX] ++ [c7gY])).1 ∧
    mkNotFound c7p ∈
      respNotFound (compareHandler (Except.ok ([c7gX] ++ c7p :: [c7gY])) c7Lookup 5000) :=
  c7_free_sentinel c7Lookup 5000 [c7gX] [c7gY] c7p c7q (by decide) rfl

/-- C8: when every resolved product has a non-free quote with savings
below `minDifference`, the games list is empty and the unmatched list is
exactly the unresolved products — a resolved-but-below-threshold product
is filtered out, never counted as unmatched. -/
theorem c8_below_threshold_not_unmatched (lookup : CDGame → Option SteamQuote) (m : Int)
    (gs : List CDGame)
    (h : ∀ g ∈ gs, ∀ sp, lookup g = some sp →
      ¬(sp.final = "무료") ∧ ∃ s, (mkGameData g sp).savings = some s ∧ s < m) :
    respGames (compareHandler (Except.ok gs) lookup m) = [] ∧
    respNotFound (compareHandler (Except.ok gs) lookup m) =
      (gs.filter (fun g => (lookup g).isNone)).map mkNotFound := by
  have hpr : ∀ (gs2 : List CDGame),
      (∀ g ∈ gs2, ∀ sp, lookup g = some sp →
        ¬(sp.final = "무료") ∧ ∃ s, (mkGameData g sp).savings = some s ∧ s < m) →
      processGames lookup m gs2 =
        ([], (gs2.filter (fun g => (lookup g).isNone)).map mkNotFound) := by
    intro gs2
    induction gs2 with
    | nil => intro _; rfl
    | cons g rest ih =>
      intro h2
      have hrest := ih (fun g2 hg2 sp hsp => h2 g2 (List.mem_cons_of_mem g hg2) sp hsp)
      cases hg : lookup g with
      | none =>
        rw [processGames_cons_none lookup m g rest hg, hrest,
          show (g :: rest).filter (fun g => (lookup g).isNone) =
            g :: rest.filter (fun g => (lookup g).isNone) from by
              rw [List.filter_cons, if_pos (by simp [hg])]]
        rfl
      | some sp =>
        obtain ⟨hfin, s, hsav, hlt⟩ := h2 g (List.mem_cons_self g rest) sp hg
        have hge : ¬(jsGeB (mkGameData g sp).savings m = true) := by
          intro hc
          rw [hsav] at hc
          simp only [jsGeB, decide_eq_true_eq] at hc
          omega
        rw [processGames_cons_skip lookup m g rest sp hg hfin hge, hrest,
          show (g :: rest).filter (fun g => (lookup g).isNone) =
            rest.filter (fun g => (lookup g).isNone) from by
              rw [List.filter_cons, if_neg (by simp [hg])]]
  cases gs with
  | nil => exact ⟨rfl, rfl⟩
  | cons g rest =>
    refine ⟨?_, ?_⟩
    · rw [respGames_ok, hpr (g :: rest) h]
      rfl
    · rw [respNotFound_ok, hpr (g :: rest) h]

/-- C8 witness: of two products, one unresolved and one resolved with
savings 1,000 < 5,000, the games list is empty and only the unresolved
product is unmatched. -/
theorem c8_below_threshold_not_unmatched_witness :
    respGames (compareHandler (Except.ok [c8ga, c8gb]) c8Lookup 5000) = [] ∧
    respNotFound (compareHandler (Except.ok [c8ga, c8gb]) c8Lookup 5000) =
      [mkNotFound c8ga] := by
  have h := c8_below_threshold_not_unmatched c8Lookup 5000 [c8ga, c8gb] ?hh
  · exact ⟨h.1, by rw [h.2]; decide⟩
  case hh =>
    intro g hg sp hsp
    fin_cases hg
    · rw [show c8Lookup c8ga = none from by decide] at hsp
      exact absurd hsp (by simp)
    · rw [show c8Lookup c8gb = some ⟨"B", 2, "₩3000", "₩3000", none, ""⟩ from by decide] at hsp
      have hsp2 : sp = ⟨"B", 2, "₩3000", "₩3000", none, ""⟩ := by
        injection hsp with h0
        exact h0.symm
      subst hsp2
      exact ⟨by decide, 1000, by decide, by decide⟩

/-- C2: `searchSteamGame` builds the ordered, first-occurrence
de-duplicated variant list (a sublist of the 8 source-order variants,
each kept variant nonempty with trimmed length at least 3), returns
not-found iff every variant's (trimmed) search comes back empty, and
accepts the first variant with a non-empty candidate list, preferring a
`game`/`dlc` candidate and otherwise the first candidate
(`mkSearchResult`). -/
theorem c2_variant_search (search : String → List SteamItem) (name : String) :
    (searchSteamGame search name = none ↔
      ∀ v ∈ uniqueAttempts name, search (trimS v) = []) ∧
    (∀ (k : Nat) (hk : k < (uniqueAttempts name).length),
      (∀ j (hj : j < (uniqueAttempts name).length), j < k →
        search (trimS ((uniqueAttempts name).get ⟨j, hj⟩)) = []) →
      ∀ it its, search (trimS ((uniqueAttempts name).get ⟨k, hk⟩)) = it :: its →
        searchSteamGame search name =
          some (mkSearchResult k (trimS ((uniqueAttempts name).get ⟨k, hk⟩)) it its)) ∧
    (uniqueAttempts name).Nodup ∧
    List.Sublist (uniqueAttempts name) (searchAttempts name) ∧
    (∀ v ∈ uniqueAttempts name, ¬(v = "") ∧ 2 < (trimS v).length) := by
  refine ⟨runSearch_none_iff search _ 0, ?_, uniqueAttempts_nodup name,
    uniqueAttempts_sublist name, uniqueAttempts_kept name⟩
  intro k hk hprev it its hs
  have h := runSearch_first search (uniqueAttempts name) 0 k hk hprev it its hs
  rwa [Nat.zero_add] at h

/-- C2 witness: for `"Dead Space PC"` the variants are
`["Dead Space PC", "Dead Space", "Dead"]`; the first returns nothing, the
second returns a `game` candidate, which is accepted at stage 2. -/
theorem c2_variant_search_witness :
    searchSteamGame c2Search "Dead Space PC" =
      some ⟨10, "Dead Space", "game", "Steam API (2단계: \"Dead Space\")"⟩ := by
  have h := (c2_variant_search c2Search "Dead Space PC").2.1 1 (by decide)
    (by
      intro j hj hjk
      have hj0 : j = 0 := by omega
      subst hj0
      have hv : (uniqueAttempts "Dead Space PC").get ⟨0, hj⟩ = "Dead Space PC" := rfl
      rw [hv]
      decide)
    ⟨10, "Dead Space", "game"⟩ [] (by decide)
  rw [h]
  decide
